import Mathlib

/-! The system-call layer of rv32emu (`src/syscall.c`).

A shallow embedding of the system-call emulation layer and the properties
stated about it.

* Machine words (`riscv_word_t`, `uint32_t`) are natural numbers; 32-bit
  wrap-around is written out with `add32` / `sub32` and `% 4294967296`.
* The VM (`riscv_t` with its `vm_attr_t`) is the record `State`; handlers are
  functions on it.  A handler that may fail to return normally (a loop that
  never ends, a failed `assert`, a read past the end of guest memory) returns
  `Option`, `none` standing for "does not return normally".
* The C library of the host (`fopen`, `fread`, `putchar`, ...) is not part of
  the program.  Handlers take it as a record `HostOps H` of pure functions on
  an arbitrary host state `H`; `idealHost` is one concrete host in which
  files are byte lists, `fwrite` stores every byte and `fread` returns
  `min requested remaining` bytes.
* The staging buffer `tmp` is written before it is read at each use, so its
  content is passed along functionally; the field `staged` records the size
  of every transfer that goes through it.
-/

namespace Rv32emu

/-! ## Constants -/

/-- Capacity of the staging buffer `tmp` (`#define PREALLOC_SIZE 4096`). -/
def PREALLOC_SIZE : Nat := 4096

def SYS_writeint : Nat := 1
def SYS_writefloat : Nat := 2
def SYS_writestring : Nat := 4
def SYS_readint : Nat := 5
def SYS_readfloat : Nat := 6
def SYS_readstring : Nat := 8
def SYS_exit : Nat := 10
def SYS_writechar : Nat := 11
def SYS_readchar : Nat := 12
def SYS_writeinthex : Nat := 34
def SYS_close : Nat := 57
def SYS_lseek : Nat := 62
def SYS_read : Nat := 63
def SYS_write : Nat := 64
def SYS_fstat : Nat := 80
def SYS_exit2 : Nat := 93
def SYS_gettimeofday : Nat := 169
def SYS_brk : Nat := 214
def SYS_clock_gettime : Nat := 403
def SYS_open : Nat := 1024

/-- The numbers of `SUPPORTED_SYSCALLS` with `RV32_HAS(SDL)` off. -/
def SUPPORTED_SYSCALLS : List Nat :=
  [SYS_writeint, SYS_writefloat, SYS_writestring, SYS_readint, SYS_readfloat,
   SYS_readstring, SYS_exit, SYS_writechar, SYS_readchar, SYS_writeinthex,
   SYS_close, SYS_lseek, SYS_read, SYS_write, SYS_fstat, SYS_exit2,
   SYS_gettimeofday, SYS_brk, SYS_clock_gettime, SYS_open]

def O_RDONLY : Nat := 0
def O_WRONLY : Nat := 1
def O_RDWR : Nat := 2
def O_ACCMODE : Nat := 3

/-- Modelled from the spec: the register identifiers of `riscv.h`, which is
not among the sources.  The spec speaks of "the first through seventh integer
argument registers"; in the RISC-V calling convention these are `x10`..`x16`,
the system-call number travels in `a7 = x17`, and `x0` is the zero register. -/
def rv_reg_zero : Nat := 0

/-- Modelled from the spec: first integer argument and return register
(`x10`), see `rv_reg_zero`. -/
def rv_reg_a0 : Nat := 10

/-- Modelled from the spec: second integer argument register (`x11`). -/
def rv_reg_a1 : Nat := 11

/-- Modelled from the spec: third integer argument register (`x12`). -/
def rv_reg_a2 : Nat := 12

/-- Modelled from the spec: the designated system-call number register
(`x17`). -/
def rv_reg_a7 : Nat := 17

/-- Modelled from the spec: the floating-point argument/return register
(`f10`). -/
def rv_reg_fa0 : Nat := 10

/-- Modelled from the spec: host clock identifiers accepted by
`clock_gettime` (the real-time clock, `<time.h>` value 0). -/
def CLOCK_REALTIME : Nat := 0

/-- Modelled from the spec: the monotonic clock identifier (`<time.h>` value
1). -/
def CLOCK_MONOTONIC : Nat := 1

/-- The bit pattern of `i32_to_f32(-1)`, that is of `-1.0f`. -/
def F32_MINUS_ONE : Nat := 0xBF800000

/-! ## 32-bit arithmetic -/

/-- Addition of `uint32_t` values. -/
def add32 (a b : Nat) : Nat := (a + b) % 4294967296

/-- Subtraction of `uint32_t` values. -/
def sub32 (a b : Nat) : Nat := (a + 4294967296 - b % 4294967296) % 4294967296

/-! ## Machine state -/

/-- One transfer through the staging buffer `tmp`, with the number of bytes
asked for. -/
inductive Staged where
  | memory_read (n : Nat)
  | memory_write (n : Nat)
  | fread (n : Nat)
  | fwrite (n : Nat)
deriving DecidableEq

/-- Number of bytes a staged transfer asks for. -/
def Staged.size : Staged → Nat
  | .memory_read n => n
  | .memory_write n => n
  | .fread n => n
  | .fwrite n => n

/-- The VM as seen by the system-call layer: register files, halt flag, guest
memory and the fields of `vm_attr_t` (`fd_map`, `break_addr`, `exit_code`,
`error`), together with the state of the host and the record of staged
transfers. -/
structure State (H : Type) where
  X : Nat → Nat
  F : Nat → Nat
  halt : Bool
  mem : Nat → Nat
  fd_map : List (Nat × Nat)
  break_addr : Nat
  exit_code : Nat
  error : Nat
  host : H
  staged : List Staged

variable {H : Type}

/-- Modelled from the spec: `register_read(id) -> word` (`rv_get_reg` lives in
`riscv.c`, which is not among the sources). -/
def rv_get_reg (s : State H) (reg : Nat) : Nat := s.X reg

/-- Modelled from the spec: `register_write(id, word)`; the value is converted
to a 32-bit word. -/
def rv_set_reg (s : State H) (reg : Nat) (v : Nat) : State H :=
  { s with X := Function.update s.X reg (v % 4294967296) }

/-- Modelled from the spec: `float_register_read`. -/
def rv_get_freg (s : State H) (reg : Nat) : Nat := s.F reg

/-- Modelled from the spec: `float_register_write`. -/
def rv_set_freg (s : State H) (reg : Nat) (v : Nat) : State H :=
  { s with F := Function.update s.F reg (v % 4294967296) }

/-- Modelled from the spec: halting the VM (`rv_halt` lives in `riscv.c`). -/
def rv_halt (s : State H) : State H := { s with halt := true }

/-- Modelled from the spec: `guest_memory_read(addr, len) -> bytes`, the
`len` bytes of guest memory from `addr` on. -/
def memory_read (mem : Nat → Nat) (addr n : Nat) : List Nat :=
  (List.range n).map (fun i => mem (addr + i))

/-- Modelled from the spec: `guest_memory_write(addr, bytes)`, copying the
first `n` bytes of `src` to guest memory from `addr` on. -/
def memory_write (mem : Nat → Nat) (addr : Nat) (src : List Nat) (n : Nat) : Nat → Nat :=
  fun a => if addr ≤ a ∧ a < addr + n then src.getD (a - addr) 0 else mem a

/-- Modelled from the spec: the word write used for the time structures
("two raw words at offsets 0 and 8"): four bytes of `src`. -/
def memory_write_w (mem : Nat → Nat) (addr : Nat) (src : List Nat) : Nat → Nat :=
  memory_write mem addr src 4

/-! ## The descriptor table

`map.c` is not among the sources.  The table is an association list from
identifier to host handle: `map_find` finds the first entry, `map_insert` adds
one, `map_erase` drops the entries of a key. -/

/-- Modelled from the spec: table lookup ("look up `fd`; if absent, fail").
`none` is `map_at_end`. -/
def map_find (m : List (Nat × Nat)) (key : Nat) : Option Nat :=
  match m with
  | [] => none
  | (k, v) :: rest => if k = key then some v else map_find rest key

/-- Modelled from the spec: "insert it with the new host handle". -/
def map_insert (m : List (Nat × Nat)) (key val : Nat) : List (Nat × Nat) :=
  (key, val) :: m

/-- Modelled from the spec: "remove the entry". -/
def map_erase (m : List (Nat × Nat)) (key : Nat) : List (Nat × Nat) :=
  m.filter (fun e => e.1 != key)

/-- The identifiers that are keys of the table. -/
def keys (m : List (Nat × Nat)) : List Nat := m.map Prod.fst

/-- The probing loop of `find_free_fd`: `for (i = ...;; ++i)`, returning the
first `i` that is not a key.  `fuel` bounds the number of probes. -/
def find_free_fd_loop (m : List (Nat × Nat)) : Nat → Nat → Option Nat
  | 0, _ => none
  | fuel + 1, i =>
    if (map_find m i).isNone then some i
    else find_free_fd_loop m fuel (i + 1)

/-- The function `find_free_fd`.  A table of `n` entries has a free identifier among
`3 .. 3 + n`, so `n + 1` probes always suffice (`find_free_fd_isSome`). -/
def find_free_fd (m : List (Nat × Nat)) : Option Nat :=
  find_free_fd_loop m (m.length + 1) 3

/-- The function `get_mode_str`. -/
def get_mode_str (flags : Nat) (_mode : Nat) : Option String :=
  if flags &&& O_ACCMODE = O_RDONLY then some "rb"
  else if flags &&& O_ACCMODE = O_WRONLY then some "wb"
  else if flags &&& O_ACCMODE = O_RDWR then some "a+"
  else none

/-! ## The host -/

/-- The host C library as used by the handlers.  Handles (`FILE *`) are
numbers; `fopen` gives `none` for `NULL`; `fread h handle n` gives the bytes
it put into the buffer (their number is the return value of `fread`);
`fwrite h handle data` is given the bytes to write and gives the number
written; `printf` gives its `int` result; `fscanf` gives the 32-bit pattern
that is in `value` after the call; `scanf_str` gives the C string that is in
`myString` after `scanf("%[^\n]s", myString)`; `scanf_chr` the byte in `ch`
after `scanf("%c", &ch)`; the two clock functions give the host-native bytes
of the two fields of the time structure. -/
structure HostOps (H : Type) where
  putchar : H → Nat → H
  printf : H → String → Nat → Int × H
  fprintf_stderr : H → String → Nat → H
  scanf_str : H → List Nat × H
  scanf_chr : H → Nat × H
  fscanf : H → Nat → String → Nat × H
  fopen : H → List Nat → String → Option Nat × H
  fclose : H → Nat → Int × H
  fread : H → Nat → Nat → List Nat × H
  fwrite : H → Nat → List Nat → Nat × H
  ferror : H → Nat → Bool
  fseek : H → Nat → Nat → Nat → Int × H
  rv_gettimeofday : H → (List Nat × List Nat) × H
  rv_clock_gettime : H → (List Nat × List Nat) × H

/-- Conversion of an `int` result to `size_t` (64 bits), as in
`size_t written = printf(...)`. -/
def to_size_t (r : Int) : Nat := (r % 18446744073709551616).toNat

/-! ## Handlers -/

/-- The loop of `syscall_writestring`.  `total_read` and the address are
32-bit, so the loop visits at most `2^32` different addresses. -/
def writestring_loop (ops : HostOps H) (addr : Nat) : Nat → Nat → State H → Option (State H)
  | 0, _, _ => none
  | fuel + 1, total_read, s =>
    let tmp := memory_read s.mem (add32 addr total_read) 1
    let s1 := { s with staged := s.staged ++ [Staged.memory_read 1] }
    let c := tmp.getD 0 0
    if c = 0 then some s1
    else
      let s2 := { s1 with host := ops.putchar s1.host c }
      writestring_loop ops addr fuel (add32 total_read 1) s2

/-- The handler `syscall_writestring`.  The loop does not change guest memory and
its address is 32-bit: if it has not met a NUL byte after `2^32` rounds it
never will, and the handler does not return (`none`). -/
def syscall_writestring (ops : HostOps H) (s : State H) : Option (State H) :=
  let addr := rv_get_reg s rv_reg_a0
  writestring_loop ops addr 4294967296 0 s

/-- The loop of `syscall_writechar`: as `writestring_loop`, with the
`printf("%c", c)` that precedes the test for NUL. -/
def writechar_loop (ops : HostOps H) (addr : Nat) : Nat → Nat → State H → Option (State H)
  | 0, _, _ => none
  | fuel + 1, total_read, s =>
    let tmp := memory_read s.mem (add32 addr total_read) 1
    let s1 := { s with staged := s.staged ++ [Staged.memory_read 1] }
    let c := tmp.getD 0 0
    let s2 := { s1 with host := (ops.printf s1.host "%c" c).2 }
    if c = 0 then some s2
    else
      let s3 := { s2 with host := ops.putchar s2.host c }
      writechar_loop ops addr fuel (add32 total_read 1) s3

/-- The handler `syscall_writechar`. -/
def syscall_writechar (ops : HostOps H) (s : State H) : Option (State H) :=
  let addr := rv_get_reg s rv_reg_a0
  writechar_loop ops addr 4294967296 0 s

/-- The handler `syscall_writeint`. -/
def syscall_writeint (ops : HostOps H) (s : State H) : State H :=
  let value := rv_get_reg s rv_reg_a0
  let r := ops.printf s.host "%d" value
  let written := to_size_t r.1
  let s1 := { s with host := r.2 }
  if written ≤ 0 then rv_set_reg s1 rv_reg_a0 0xFFFFFFFF
  else rv_set_reg s1 rv_reg_a0 written

/-- The handler `syscall_writeinthex`. -/
def syscall_writeinthex (ops : HostOps H) (s : State H) : State H :=
  let value := rv_get_reg s rv_reg_a0
  let r := ops.printf s.host "0x%08x" value
  let written := to_size_t r.1
  let s1 := { s with host := r.2 }
  if written ≤ 0 then rv_set_reg s1 rv_reg_a0 0xFFFFFFFF
  else rv_set_reg s1 rv_reg_a0 written

/-- The handler `syscall_writefloat`. -/
def syscall_writefloat (ops : HostOps H) (s : State H) : State H :=
  let float_value := rv_get_freg s rv_reg_fa0
  let r := ops.printf s.host "%.1f" float_value
  let written := to_size_t r.1
  let s1 := { s with host := r.2 }
  if written ≤ 0 then rv_set_freg s1 rv_reg_fa0 F32_MINUS_ONE
  else s1

/-- The handler `syscall_readint`.  The descriptor is read with `rv_get_reg(rv, 0)`. -/
def syscall_readint (ops : HostOps H) (s : State H) : State H :=
  let fd := rv_get_reg s 0
  match map_find s.fd_map fd with
  | none => rv_set_reg s rv_reg_a0 0xFFFFFFFF
  | some handle =>
    let r := ops.fscanf s.host handle "%d"
    let value := r.1
    rv_set_reg { s with host := r.2 } rv_reg_a0 value

/-- The handler `syscall_readfloat`.  The key is the bit pattern of `fa0`. -/
def syscall_readfloat (ops : HostOps H) (s : State H) : State H :=
  let fd := rv_get_freg s rv_reg_fa0
  match map_find s.fd_map fd with
  | none => rv_set_freg s rv_reg_fa0 F32_MINUS_ONE
  | some handle =>
    let r := ops.fscanf s.host handle "%f"
    let float_value := r.1
    rv_set_freg { s with host := r.2 } rv_reg_fa0 float_value

/-- The handler `syscall_exit`. -/
def syscall_exit (s : State H) : State H :=
  { rv_halt s with exit_code := 0 }

/-- The handler `syscall_exit2`. -/
def syscall_exit2 (s : State H) : State H :=
  let s1 := rv_halt s
  { s1 with exit_code := rv_get_reg s1 rv_reg_a0 }

/-- What leaves the chunk loop of `syscall_write`: a jump to `error_handler`,
or the remaining `count` and the running `total_write`. -/
inductive WriteLoop (H : Type) where
  | error (s : State H)
  | done (count total_write : Nat) (s : State H)

/-- The loop `while (count > PREALLOC_SIZE)` of `syscall_write`; `it` is the
result of the table lookup made before the loop. -/
def write_loop (ops : HostOps H) (it : Option Nat) (buffer : Nat) :
    Nat → Nat → Nat → State H → Option (WriteLoop H)
  | 0, _, _, _ => none
  | fuel + 1, count, total_write, s =>
    if count > PREALLOC_SIZE then
      let tmp := memory_read s.mem (add32 buffer total_write) PREALLOC_SIZE
      let s1 := { s with staged := s.staged ++ [Staged.memory_read PREALLOC_SIZE] }
      match it with
      | some handle =>
        let r := ops.fwrite s1.host handle tmp
        let written := r.1
        let s2 := { s1 with host := r.2, staged := s1.staged ++ [Staged.fwrite PREALLOC_SIZE] }
        if written ≠ PREALLOC_SIZE ∧ ops.ferror s2.host handle = true then
          some (WriteLoop.error s2)
        else
          write_loop ops it buffer fuel (sub32 count PREALLOC_SIZE) (add32 total_write written) s2
      | none => some (WriteLoop.error s1)
    else some (WriteLoop.done count total_write s)

/-- The handler `syscall_write`.  Each round of the loop takes `PREALLOC_SIZE` off
`count`, so `count + 1` rounds of fuel are never used up
(`write_loop_isSome`).  A failed `assert` gives `none`. -/
def syscall_write (ops : HostOps H) (s : State H) : Option (State H) :=
  let fd := rv_get_reg s rv_reg_a0
  let buffer := rv_get_reg s rv_reg_a1
  let count := rv_get_reg s rv_reg_a2
  let it := map_find s.fd_map fd
  match write_loop ops it buffer (count + 1) count 0 s with
  | none => none
  | some (WriteLoop.error s1) => some (rv_set_reg s1 rv_reg_a0 0xFFFFFFFF)
  | some (WriteLoop.done count1 total_write s1) =>
    let tmp := memory_read s1.mem (add32 buffer total_write) count1
    let s2 := { s1 with staged := s1.staged ++ [Staged.memory_read count1] }
    match it with
    | some handle =>
      let r := ops.fwrite s2.host handle tmp
      let written := r.1
      let s3 := { s2 with host := r.2, staged := s2.staged ++ [Staged.fwrite count1] }
      if written ≠ count1 ∧ ops.ferror s3.host handle = true then
        some (rv_set_reg s3 rv_reg_a0 0xFFFFFFFF)
      else
        let total_write1 := add32 total_write written
        if total_write1 = rv_get_reg s3 rv_reg_a2 then
          some (rv_set_reg s3 rv_reg_a0 total_write1)
        else none
    | none => some (rv_set_reg s2 rv_reg_a0 0xFFFFFFFF)

/-- The handler `syscall_brk`. -/
def syscall_brk (s : State H) : State H :=
  let increment := rv_get_reg s rv_reg_a0
  let s1 := if increment ≠ 0 then { s with break_addr := increment } else s
  rv_set_reg s1 rv_reg_a0 s1.break_addr

/-- The handler `syscall_gettimeofday`. -/
def syscall_gettimeofday (ops : HostOps H) (s : State H) : State H :=
  let tv := rv_get_reg s rv_reg_a0
  let s1 :=
    if tv ≠ 0 then
      let r := ops.rv_gettimeofday s.host
      let mem1 := memory_write_w s.mem (add32 tv 0) r.1.1
      let mem2 := memory_write_w mem1 (add32 tv 8) r.1.2
      { s with host := r.2, mem := mem2 }
    else s
  rv_set_reg s1 rv_reg_a0 0

/-- The handler `syscall_clock_gettime`. -/
def syscall_clock_gettime (ops : HostOps H) (s : State H) : State H :=
  let id := rv_get_reg s rv_reg_a0
  let tp := rv_get_reg s rv_reg_a1
  if id = CLOCK_REALTIME ∨ id = CLOCK_MONOTONIC then
    let s1 :=
      if tp ≠ 0 then
        let r := ops.rv_clock_gettime s.host
        let mem1 := memory_write_w s.mem (add32 tp 0) r.1.1
        let mem2 := memory_write_w mem1 (add32 tp 8) r.1.2
        { s with host := r.2, mem := mem2 }
      else s
    rv_set_reg s1 rv_reg_a0 0
  else rv_set_reg s rv_reg_a0 0xFFFFFFFF

/-- The handler `syscall_close`. -/
def syscall_close (ops : HostOps H) (s : State H) : State H :=
  let fd := rv_get_reg s rv_reg_a0
  if fd ≥ 3 then
    match map_find s.fd_map fd with
    | some handle =>
      let r := ops.fclose s.host handle
      let s1 := { s with host := r.2 }
      if r.1 ≠ 0 then rv_set_reg s1 rv_reg_a0 0xFFFFFFFF
      else
        let s2 := { s1 with fd_map := map_erase s1.fd_map fd }
        let s3 := rv_set_reg s2 rv_reg_a0 0
        rv_set_reg s3 rv_reg_a0 0
    | none => rv_set_reg s rv_reg_a0 0
  else rv_set_reg s rv_reg_a0 0

/-- The handler `syscall_lseek`. -/
def syscall_lseek (ops : HostOps H) (s : State H) : State H :=
  let fd := rv_get_reg s rv_reg_a0
  let offset := rv_get_reg s rv_reg_a1
  let whence := rv_get_reg s rv_reg_a2
  match map_find s.fd_map fd with
  | none => rv_set_reg s rv_reg_a0 0xFFFFFFFF
  | some handle =>
    let r := ops.fseek s.host handle offset whence
    let s1 := { s with host := r.2 }
    if r.1 ≠ 0 then rv_set_reg s1 rv_reg_a0 0xFFFFFFFF
    else rv_set_reg s1 rv_reg_a0 0

/-- The loop `while (count > PREALLOC_SIZE)` of `syscall_read`, giving the
remaining `count`, the running `total_read` and the state when it is left. -/
def read_loop (ops : HostOps H) (handle buf : Nat) :
    Nat → Nat → Nat → State H → Option (Nat × Nat × State H)
  | 0, _, _, _ => none
  | fuel + 1, count, total_read, s =>
    if count > PREALLOC_SIZE then
      let tmp := ops.fread s.host handle PREALLOC_SIZE
      let r := tmp.1.length
      let s1 := { s with
        host := tmp.2
        mem := memory_write s.mem (add32 buf total_read) tmp.1 r
        staged := s.staged ++ [Staged.fread PREALLOC_SIZE, Staged.memory_write r] }
      let count1 := sub32 count r
      let total_read1 := add32 total_read r
      if r ≠ PREALLOC_SIZE then some (count1, total_read1, s1)
      else read_loop ops handle buf fuel count1 total_read1 s1
    else some (count, total_read, s)

/-- The handler `syscall_read`.  A round of the loop that is followed by another
takes `PREALLOC_SIZE` off `count`, so `count + 1` rounds of fuel are never
used up (`syscall_read_isSome`). -/
def syscall_read (ops : HostOps H) (s : State H) : Option (State H) :=
  let fd := rv_get_reg s rv_reg_a0
  let buf := rv_get_reg s rv_reg_a1
  let count := rv_get_reg s rv_reg_a2
  match map_find s.fd_map fd with
  | none => some (rv_set_reg s rv_reg_a0 0xFFFFFFFF)
  | some handle =>
    match read_loop ops handle buf (count + 1) count 0 s with
    | none => none
    | some (count1, total_read, s1) =>
      let tmp := ops.fread s1.host handle count1
      let r := tmp.1.length
      let s2 := { s1 with
        host := tmp.2
        mem := memory_write s1.mem (add32 buf total_read) tmp.1 r
        staged := s1.staged ++ [Staged.fread count1, Staged.memory_write r] }
      let total_read1 := add32 total_read r
      if total_read1 ≠ rv_get_reg s2 rv_reg_a2 ∧ ops.ferror s2.host handle = true then
        some (rv_set_reg s2 rv_reg_a0 0xFFFFFFFF)
      else some (rv_set_reg s2 rv_reg_a0 total_read1)

/-- The handler `syscall_readstring`. -/
def syscall_readstring (ops : HostOps H) (s : State H) : State H :=
  let buf := rv_get_reg s rv_reg_a0
  let max_chars := rv_get_reg s rv_reg_a1
  let r := ops.scanf_str s.host
  let myString := r.1
  let total_read := myString.length % 4294967296
  let total_read := if total_read > sub32 max_chars 1 then sub32 max_chars 1 else total_read
  let mem1 := (List.range total_read).foldl
    (fun m i => memory_write m (add32 buf i) [myString.getD i 0] 1) s.mem
  let mem2 := memory_write mem1 (add32 buf total_read) [0] 1
  rv_set_reg { s with host := r.2, mem := mem2 } rv_reg_a0 total_read

/-- The handler `syscall_readchar`. -/
def syscall_readchar (ops : HostOps H) (s : State H) : State H :=
  let buf := rv_get_reg s rv_reg_a0
  let max_chars := rv_get_reg s rv_reg_a1
  if max_chars < 2 then rv_set_reg s rv_reg_a0 0
  else
    let r := ops.scanf_chr s.host
    let ch := r.1
    let mem1 := memory_write s.mem buf [ch] 1
    let mem2 := memory_write mem1 (add32 buf 1) [0] 1
    rv_set_reg { s with host := r.2, mem := mem2 } rv_reg_a0 1

/-- The handler `syscall_fstat`: an empty body. -/
def syscall_fstat (s : State H) : State H := s

/-- The search of `strlen` from offset `p` of the guest image. -/
def strlen_loop (mem : Nat → Nat) (p : Nat) : Nat → Nat → Option Nat
  | 0, _ => none
  | fuel + 1, n =>
    if mem (p + n) = 0 then some n else strlen_loop mem p fuel (n + 1)

/-- The call `strlen((char *) attr->mem->mem_base + name)`.  Guest memory has
`2^32` bytes; a search that meets no NUL byte before its end leaves the guest
image, which is undefined behaviour (`none`). -/
def strlen (mem : Nat → Nat) (name : Nat) : Option Nat :=
  strlen_loop mem name (4294967296 - name) 0

/-- The handler `syscall_open`. -/
def syscall_open (ops : HostOps H) (s : State H) : Option (State H) :=
  let name := rv_get_reg s rv_reg_a0
  let flags := rv_get_reg s rv_reg_a1
  let mode := rv_get_reg s rv_reg_a2
  match strlen s.mem name with
  | none => none
  | some name_len =>
    let name_str := memory_read s.mem name name_len
    match get_mode_str flags mode with
    | none => some (rv_set_reg s rv_reg_a0 0xFFFFFFFF)
    | some mode_str =>
      let r := ops.fopen s.host name_str mode_str
      let s1 := { s with host := r.2 }
      match r.1 with
      | none => some (rv_set_reg s1 rv_reg_a0 0xFFFFFFFF)
      | some handle =>
        match find_free_fd s1.fd_map with
        | none => none
        | some fd =>
          let s2 := { s1 with fd_map := map_insert s1.fd_map fd handle }
          some (rv_set_reg s2 rv_reg_a0 fd)

/-- The switch of `syscall_handler`, with the `default:` branch last. -/
def dispatch (ops : HostOps H) (syscall : Nat) (s : State H) : Option (State H) :=
  if syscall = SYS_writeint then some (syscall_writeint ops s)
  else if syscall = SYS_writefloat then some (syscall_writefloat ops s)
  else if syscall = SYS_writestring then syscall_writestring ops s
  else if syscall = SYS_readint then some (syscall_readint ops s)
  else if syscall = SYS_readfloat then some (syscall_readfloat ops s)
  else if syscall = SYS_readstring then some (syscall_readstring ops s)
  else if syscall = SYS_exit then some (syscall_exit s)
  else if syscall = SYS_writechar then syscall_writechar ops s
  else if syscall = SYS_readchar then some (syscall_readchar ops s)
  else if syscall = SYS_writeinthex then some (syscall_writeinthex ops s)
  else if syscall = SYS_close then some (syscall_close ops s)
  else if syscall = SYS_lseek then some (syscall_lseek ops s)
  else if syscall = SYS_read then syscall_read ops s
  else if syscall = SYS_write then syscall_write ops s
  else if syscall = SYS_fstat then some (syscall_fstat s)
  else if syscall = SYS_exit2 then some (syscall_exit2 s)
  else if syscall = SYS_gettimeofday then some (syscall_gettimeofday ops s)
  else if syscall = SYS_brk then some (syscall_brk s)
  else if syscall = SYS_clock_gettime then some (syscall_clock_gettime ops s)
  else if syscall = SYS_open then syscall_open ops s
  else some { s with host := ops.fprintf_stderr s.host "unknown syscall %d\n" syscall }

/-- The function `syscall_handler`. -/
def syscall_handler (ops : HostOps H) (s : State H) : Option (State H) :=
  let syscall := rv_get_reg s rv_reg_a7
  match dispatch ops syscall s with
  | none => none
  | some s1 => some { s1 with error := rv_get_reg s1 rv_reg_a0 }

/-! ## An ideal host

Files are byte lists found by name; a stream (`FILE`) has a name, the mode it
was opened with, a position and an error indicator.  `fwrite` stores every
byte it is given, `fread` returns `min requested remaining` bytes.  A transfer
in the wrong direction (reading a `"wb"` stream, writing an `"rb"` stream)
moves nothing and sets the error indicator.  The text conversions of
floating-point numbers are data of the host (`ftoa`, `atof`). -/

/-- An open stream of the ideal host. -/
structure Stream where
  path : List Nat
  mode : String
  pos : Nat
  err : Bool
deriving DecidableEq

/-- State of the ideal host. -/
structure Host where
  files : List Nat → Option (List Nat)
  streams : Nat → Option Stream
  next : Nat
  out : List Nat
  errout : List Nat
  inp : List Nat
  clock : List Nat × List Nat
  ftoa : Nat → List Nat
  atof : List Nat → Nat

/-- Content of the file a stream is open on. -/
def Host.content (h : Host) (st : Stream) : List Nat := (h.files st.path).getD []

/-- Bytes between the position of a stream and the end of its file. -/
def Host.remaining (h : Host) (st : Stream) : List Nat := (h.content st).drop st.pos

/-- Replacing the stream behind a handle. -/
def Host.set_stream (h : Host) (handle : Nat) (st : Stream) : Host :=
  { h with streams := Function.update h.streams handle (some st) }

/-- The host after `data` has been added at the end of the file of stream
`st`, open under `handle`. -/
def Host.append_to (h : Host) (handle : Nat) (st : Stream) (data : List Nat) : Host :=
  { h with files := Function.update h.files st.path (some (h.content st ++ data)) }.set_stream
    handle { st with pos := st.pos + data.length }

/-- Decimal text of a 32-bit word read as `int`. -/
def dec32 (v : Nat) : List Nat :=
  if v % 4294967296 < 2147483648 then (Nat.toDigits 10 (v % 4294967296)).map Char.toNat
  else 45 :: (Nat.toDigits 10 (4294967296 - v % 4294967296)).map Char.toNat

/-- Text of a 32-bit word under `0x%08x`. -/
def hex32 (v : Nat) : List Nat :=
  let d := (Nat.toDigits 16 (v % 4294967296)).map Char.toNat
  [48, 120] ++ List.replicate (8 - d.length) 48 ++ d

def ideal_putchar (h : Host) (c : Nat) : Host := { h with out := h.out ++ [c % 256] }

def ideal_printf (h : Host) (fmt : String) (arg : Nat) : Int × Host :=
  let text : Option (List Nat) :=
    if fmt = "%c" then some [arg % 256]
    else if fmt = "%d" then some (dec32 arg)
    else if fmt = "0x%08x" then some (hex32 arg)
    else if fmt = "%.1f" then some (h.ftoa arg)
    else none
  match text with
  | some t => (t.length, { h with out := h.out ++ t })
  | none => (-1, h)

def ideal_fprintf_stderr (h : Host) (_fmt : String) (arg : Nat) : Host :=
  { h with errout := h.errout ++ dec32 arg ++ [10] }

def ideal_scanf_str (h : Host) : List Nat × Host :=
  (h.inp.takeWhile (fun c => c != 10), { h with inp := h.inp.dropWhile (fun c => c != 10) })

def ideal_scanf_chr (h : Host) : Nat × Host :=
  (h.inp.headD 0, { h with inp := h.inp.tail })

def is_space (c : Nat) : Bool := c == 32 || (9 ≤ c && c ≤ 13)

def is_digit (c : Nat) : Bool := 48 ≤ c && c ≤ 57

/-- Value of a run of decimal digits. -/
def digits_value (ds : List Nat) : Nat := ds.foldl (fun a d => 10 * a + (d - 48)) 0

/-- Scanning `%d`: white space, an optional sign, decimal digits.  Gives the
32-bit pattern of the number and the count of bytes taken, or `none` when no
digit follows. -/
def scan_int (input : List Nat) : Option (Nat × Nat) :=
  let ws := input.takeWhile is_space
  let r1 := input.dropWhile is_space
  let neg := r1.head? = some 45
  let r2 := if r1.head? = some 45 ∨ r1.head? = some 43 then r1.tail else r1
  let ds := r2.takeWhile is_digit
  if ds = [] then none
  else
    let n := digits_value ds % 4294967296
    let v := if neg then (4294967296 - n) % 4294967296 else n
    some (v, ws.length + (r1.length - r2.length) + ds.length)

def ideal_fscanf (h : Host) (handle : Nat) (fmt : String) : Nat × Host :=
  match h.streams handle with
  | none => (0, h)
  | some st =>
    if st.mode = "wb" then (0, h.set_stream handle { st with err := true })
    else if fmt = "%d" then
      match scan_int (h.remaining st) with
      | none => (0, h)
      | some (v, used) =>
        (v, h.set_stream handle { st with pos := st.pos + used })
    else
      let ws := (h.remaining st).takeWhile is_space
      let tok := ((h.remaining st).dropWhile is_space).takeWhile (fun c => !is_space c)
      (h.atof tok, h.set_stream handle { st with pos := st.pos + ws.length + tok.length })

def ideal_fopen (h : Host) (name : List Nat) (mode : String) : Option Nat × Host :=
  if mode = "rb" then
    match h.files name with
    | none => (none, h)
    | some _ =>
      (some h.next, { h with
        streams := Function.update h.streams h.next (some ⟨name, mode, 0, false⟩)
        next := h.next + 1 })
  else if mode = "wb" then
    (some h.next, { h with
      files := Function.update h.files name (some [])
      streams := Function.update h.streams h.next (some ⟨name, mode, 0, false⟩)
      next := h.next + 1 })
  else if mode = "a+" then
    (some h.next, { h with
      files := Function.update h.files name (some ((h.files name).getD []))
      streams := Function.update h.streams h.next (some ⟨name, mode, 0, false⟩)
      next := h.next + 1 })
  else (none, h)

def ideal_fclose (h : Host) (handle : Nat) : Int × Host :=
  match h.streams handle with
  | none => (-1, h)
  | some _ => (0, { h with streams := Function.update h.streams handle none })

def ideal_fread (h : Host) (handle n : Nat) : List Nat × Host :=
  match h.streams handle with
  | none => ([], h)
  | some st =>
    if n = 0 then ([], h)
    else if st.mode = "wb" then
      ([], h.set_stream handle { st with err := true })
    else
      let bs := (h.remaining st).take n
      (bs, h.set_stream handle { st with pos := st.pos + bs.length })

def ideal_fwrite (h : Host) (handle : Nat) (data : List Nat) : Nat × Host :=
  match h.streams handle with
  | none => (0, h)
  | some st =>
    if data = [] then (0, h)
    else if st.mode = "rb" then
      (0, h.set_stream handle { st with err := true })
    else
      let old := h.content st
      let at_ := if st.mode = "a+" then old.length else st.pos
      let new := old.take at_ ++ List.replicate (at_ - old.length) 0 ++ data
                  ++ old.drop (at_ + data.length)
      (data.length,
        { h with files := Function.update h.files st.path (some new) }.set_stream handle
          { st with pos := at_ + data.length })

def ideal_ferror (h : Host) (handle : Nat) : Bool :=
  match h.streams handle with
  | none => false
  | some st => st.err

def ideal_fseek (h : Host) (handle offset whence : Nat) : Int × Host :=
  match h.streams handle with
  | none => (-1, h)
  | some st =>
    if whence = 0 then
      (0, h.set_stream handle { st with pos := offset })
    else if whence = 1 then
      (0, h.set_stream handle { st with pos := st.pos + offset })
    else if whence = 2 then
      (0, h.set_stream handle { st with pos := (h.content st).length + offset })
    else (-1, h)

/-- The ideal host. -/
def idealHost : HostOps Host where
  putchar := ideal_putchar
  printf := ideal_printf
  fprintf_stderr := ideal_fprintf_stderr
  scanf_str := ideal_scanf_str
  scanf_chr := ideal_scanf_chr
  fscanf := ideal_fscanf
  fopen := ideal_fopen
  fclose := ideal_fclose
  fread := ideal_fread
  fwrite := ideal_fwrite
  ferror := ideal_ferror
  fseek := ideal_fseek
  rv_gettimeofday := fun h => (h.clock, h)
  rv_clock_gettime := fun h => (h.clock, h)

/-! ## Test fixtures -/

/-- A host with one file, named `t` (byte 116), holding the text `42`, and
nothing open. -/
def host0 : Host where
  files := fun p => if p = [116] then some [52, 50] else none
  streams := fun _ => none
  next := 100
  out := []
  errout := []
  inp := []
  clock := ([0, 0, 0, 0], [0, 0, 0, 0])
  ftoa := fun _ => []
  atof := fun _ => 0

/-- A VM with empty table whose guest memory holds `"t\0"` at address 16 and
`"hi\0"` at address 32. -/
def vm0 : State Host where
  X := fun _ => 0
  F := fun _ => 0
  halt := false
  mem := fun a => if a = 16 then 116 else if a = 32 then 104 else if a = 33 then 105 else 0
  fd_map := []
  break_addr := 65536
  exit_code := 0
  error := 0
  host := host0
  staged := []

/-- A VM in which descriptor 3 is open for reading on the file `t` of
`host0` (handle 100, position 0), with 3 in `a0`. -/
def vm1 : State Host :=
  { vm0 with
    X := fun r => if r = 10 then 3 else 0
    fd_map := [(3, 100)]
    host := { host0 with
      streams := fun h => if h = 100 then some ⟨[116], "rb", 0, false⟩ else none
      next := 101 } }

/-- Loading the three argument registers before a call. -/
def set_args (s : State H) (a0 a1 a2 : Nat) : State H :=
  rv_set_reg (rv_set_reg (rv_set_reg s rv_reg_a0 a0) rv_reg_a1 a1) rv_reg_a2 a2

/-! ## Vocabulary of the statements -/

/-- A call that reported the failure sentinel in `a0` and had no other
effect: every other register, the halt flag, the descriptor table, guest
memory, the host (every file and stream), the break address, the exit code
and the last-error field are as before. -/
def failed_without_effect (s s1 : State H) : Prop :=
  s1.X rv_reg_a0 = 0xFFFFFFFF ∧ (∀ r, r ≠ rv_reg_a0 → s1.X r = s.X r) ∧ s1.F = s.F ∧
  s1.halt = s.halt ∧ s1.fd_map = s.fd_map ∧ s1.mem = s.mem ∧ s1.host = s.host ∧
  s1.break_addr = s.break_addr ∧ s1.exit_code = s.exit_code ∧ s1.error = s.error

/-- A guest request on the descriptor table: `open(name, flags, mode)` or
`close(fd)`. -/
inductive FdCall where
  | open (name flags mode : Nat)
  | close (fd : Nat)

/-- Running one request: the argument registers are loaded and the handler is
called. -/
def do_call (ops : HostOps H) (s : State H) : FdCall → Option (State H)
  | .open name flags mode => syscall_open ops (set_args s name flags mode)
  | .close fd => some (syscall_close ops (rv_set_reg s rv_reg_a0 fd))

/-- Running a sequence of requests, from left to right. -/
def do_calls (ops : HostOps H) (s : State H) : List FdCall → Option (State H)
  | [] => some s
  | c :: cs =>
    match do_call ops s c with
    | none => none
    | some s1 => do_calls ops s1 cs

/-! ## Facts about the descriptor table -/

theorem map_find_eq_none_iff (m : List (Nat × Nat)) (k : Nat) :
    map_find m k = none ↔ k ∉ keys m := by
  induction m with
  | nil => simp [map_find, keys]
  | cons e rest ih =>
    obtain ⟨a, b⟩ := e
    by_cases h : a = k
    · simp [map_find, keys, h]
    · have h2 : ¬ k = a := fun h3 => h h3.symm
      simp only [keys] at ih
      simp [map_find, keys, h, h2, ih]

theorem map_find_insert (m : List (Nat × Nat)) (key val k : Nat) :
    map_find (map_insert m key val) k = if k = key then some val else map_find m k := by
  by_cases h : key = k
  · simp [map_find, map_insert, h]
  · have h2 : ¬ k = key := fun h3 => h h3.symm
    simp [map_find, map_insert, h, h2]

theorem map_find_erase (m : List (Nat × Nat)) (key k : Nat) :
    map_find (map_erase m key) k = if k = key then none else map_find m k := by
  induction m with
  | nil => simp [map_find, map_erase]
  | cons e rest ih =>
    obtain ⟨a, b⟩ := e
    simp only [map_erase] at ih
    by_cases h : a = key
    · subst h
      by_cases h2 : k = a
      · subst h2; simpa [map_erase, List.filter_cons, map_find] using ih
      · have h3 : ¬ a = k := fun h4 => h2 h4.symm
        simpa [map_erase, List.filter_cons, map_find, h2, h3] using ih
    · by_cases h2 : a = k
      · subst h2; simp [map_erase, List.filter_cons, map_find, h]
      · simpa [map_erase, List.filter_cons, map_find, h, h2] using ih

theorem keys_erase (m : List (Nat × Nat)) (key : Nat) :
    keys (map_erase m key) = (keys m).filter (fun k => k != key) := by
  induction m with
  | nil => simp [keys, map_erase]
  | cons e rest ih =>
    simp only [keys, map_erase] at ih
    by_cases h : e.1 = key
    · simp [keys, map_erase, List.filter_cons, h, ih]
    · simp [keys, map_erase, List.filter_cons, h, ih]

theorem find_free_fd_loop_some (m : List (Nat × Nat)) :
    ∀ fuel i fd, find_free_fd_loop m fuel i = some fd →
      i ≤ fd ∧ fd < i + fuel ∧ fd ∉ keys m ∧ ∀ j, i ≤ j → j < fd → j ∈ keys m := by
  intro fuel
  induction fuel with
  | zero => intro i fd h; simp [find_free_fd_loop] at h
  | succ n ih =>
    intro i fd h
    rw [find_free_fd_loop] at h
    by_cases hfree : (map_find m i).isNone = true
    · rw [if_pos hfree] at h
      have hfd : i = fd := by simpa using h
      subst hfd
      refine ⟨le_refl _, by omega, ?_, ?_⟩
      · exact (map_find_eq_none_iff m i).mp (by simpa using hfree)
      · intro j h1 h2; omega
    · rw [if_neg hfree] at h
      obtain ⟨h1, h2, h3, h4⟩ := ih (i + 1) fd h
      refine ⟨by omega, by omega, h3, ?_⟩
      intro j hj1 hj2
      by_cases hji : j = i
      · subst hji
        by_contra hnot
        exact hfree (by simpa using (map_find_eq_none_iff m j).mpr hnot)
      · exact h4 j (by omega) hj2

theorem find_free_fd_loop_none (m : List (Nat × Nat)) :
    ∀ fuel i, find_free_fd_loop m fuel i = none →
      ∀ j, i ≤ j → j < i + fuel → j ∈ keys m := by
  intro fuel
  induction fuel with
  | zero => intro i _ j h1 h2; omega
  | succ n ih =>
    intro i h j hj1 hj2
    rw [find_free_fd_loop] at h
    by_cases hfree : (map_find m i).isNone = true
    · rw [if_pos hfree] at h; simp at h
    · rw [if_neg hfree] at h
      by_cases hji : j = i
      · subst hji
        by_contra hnot
        exact hfree (by simpa using (map_find_eq_none_iff m j).mpr hnot)
      · exact ih (i + 1) h j (by omega) (by omega)

/-- The probing of `find_free_fd` always ends: a table of `n` entries cannot
hold the `n + 1` identifiers `3 .. 3 + n`. -/
theorem find_free_fd_isSome (m : List (Nat × Nat)) : ∃ fd, find_free_fd m = some fd := by
  cases h : find_free_fd m with
  | some fd => exact ⟨fd, rfl⟩
  | none =>
    exfalso
    have hall := find_free_fd_loop_none m (m.length + 1) 3 h
    have hsub : List.range' 3 (m.length + 1) ⊆ keys m := by
      intro j hj
      rw [List.mem_range'_1] at hj
      exact hall j hj.1 (by omega)
    have hle := (List.subperm_of_subset (List.nodup_range' 3 (m.length + 1)) hsub).length_le
    simp [keys] at hle

theorem find_free_fd_spec (m : List (Nat × Nat)) (fd : Nat) (h : find_free_fd m = some fd) :
    3 ≤ fd ∧ fd ≤ m.length + 3 ∧ fd ∉ keys m ∧ ∀ j, 3 ≤ j → j < fd → j ∈ keys m := by
  obtain ⟨h1, h2, h3, h4⟩ := find_free_fd_loop_some m (m.length + 1) 3 fd h
  exact ⟨h1, by omega, h3, h4⟩

/-! ## Frame lemmas for the register writes -/

@[simp] theorem rv_set_reg_X_same (s : State H) (r v : Nat) :
    (rv_set_reg s r v).X r = v % 4294967296 := by
  simp [rv_set_reg]

@[simp] theorem rv_set_reg_X_other (s : State H) (r v q : Nat) (h : q ≠ r) :
    (rv_set_reg s r v).X q = s.X q := by
  simp [rv_set_reg, Function.update_noteq h]

@[simp] theorem rv_set_reg_F (s : State H) (r v : Nat) : (rv_set_reg s r v).F = s.F := rfl
@[simp] theorem rv_set_reg_halt (s : State H) (r v : Nat) : (rv_set_reg s r v).halt = s.halt := rfl
@[simp] theorem rv_set_reg_mem (s : State H) (r v : Nat) : (rv_set_reg s r v).mem = s.mem := rfl
@[simp] theorem rv_set_reg_fd_map (s : State H) (r v : Nat) :
    (rv_set_reg s r v).fd_map = s.fd_map := rfl
@[simp] theorem rv_set_reg_break_addr (s : State H) (r v : Nat) :
    (rv_set_reg s r v).break_addr = s.break_addr := rfl
@[simp] theorem rv_set_reg_exit_code (s : State H) (r v : Nat) :
    (rv_set_reg s r v).exit_code = s.exit_code := rfl
@[simp] theorem rv_set_reg_error (s : State H) (r v : Nat) :
    (rv_set_reg s r v).error = s.error := rfl
@[simp] theorem rv_set_reg_host (s : State H) (r v : Nat) : (rv_set_reg s r v).host = s.host := rfl
@[simp] theorem rv_set_reg_staged (s : State H) (r v : Nat) :
    (rv_set_reg s r v).staged = s.staged := rfl

theorem failed_of_set_reg (s s1 : State H) (hX : s1.X = s.X) (hF : s1.F = s.F)
    (hhalt : s1.halt = s.halt) (hfd : s1.fd_map = s.fd_map) (hmem : s1.mem = s.mem)
    (hhost : s1.host = s.host) (hb : s1.break_addr = s.break_addr)
    (he : s1.exit_code = s.exit_code) (herr : s1.error = s.error) :
    failed_without_effect s (rv_set_reg s1 rv_reg_a0 0xFFFFFFFF) := by
  refine ⟨by simp, ?_, by simpa, by simpa, by simpa, by simpa, by simpa, by simpa, by simpa, by simpa⟩
  intro r hr
  rw [rv_set_reg_X_other _ _ _ _ hr, hX]

/-- C7: `brk(0)` leaves the break address `B` as it is and returns `B`;
`brk(X)` with `X` nonzero sets the break address to exactly `X` and returns `X`,
whatever `X` is; the descriptor table, guest memory, the exit code and the
host are untouched in both cases. -/
theorem C7_brk_replaces_break_address (s : State H)
    (hB : s.break_addr < 4294967296) (hX : s.X rv_reg_a0 < 4294967296) :
    (s.X rv_reg_a0 = 0 →
      (syscall_brk s).break_addr = s.break_addr ∧
      (syscall_brk s).X rv_reg_a0 = s.break_addr) ∧
    (s.X rv_reg_a0 ≠ 0 →
      (syscall_brk s).break_addr = s.X rv_reg_a0 ∧
      (syscall_brk s).X rv_reg_a0 = s.X rv_reg_a0) ∧
    (syscall_brk s).fd_map = s.fd_map ∧ (syscall_brk s).mem = s.mem ∧
    (syscall_brk s).exit_code = s.exit_code ∧ (syscall_brk s).host = s.host := by
  refine ⟨?_, ?_, ?_, ?_, ?_, ?_⟩
  · intro h0
    simp [syscall_brk, rv_get_reg, h0, Nat.mod_eq_of_lt hB]
  · intro h0
    simp [syscall_brk, rv_get_reg, h0, Nat.mod_eq_of_lt hX]
  all_goals
    by_cases h0 : s.X rv_reg_a0 = 0 <;> simp [syscall_brk, rv_get_reg, h0]

/-- Instance at `vm0` (break address 65536): `brk(4096)` and `brk(0)`. -/
theorem C7_brk_witness :
    (syscall_brk (rv_set_reg vm0 rv_reg_a0 4096)).break_addr = 4096 ∧
    (syscall_brk (rv_set_reg vm0 rv_reg_a0 4096)).X rv_reg_a0 = 4096 ∧
    (syscall_brk vm0).break_addr = 65536 ∧ (syscall_brk vm0).X rv_reg_a0 = 65536 := by
  have h1 := C7_brk_replaces_break_address (rv_set_reg vm0 rv_reg_a0 4096)
    (by decide) (by decide)
  have h2 := C7_brk_replaces_break_address vm0 (by decide) (by decide)
  exact ⟨(h1.2.1 (by decide)).1, (h1.2.1 (by decide)).2, (h2.1 (by decide)).1,
    (h2.1 (by decide)).2⟩

/-- C9: for a system-call number in `a7` that is none of the supported ones,
`syscall_handler` returns, changes no integer or floating-point register,
does not halt the VM, and leaves the descriptor table, guest memory, the break
address and the exit code as they are; the last-error field becomes the value
of `a0`, and the host receives the diagnostic on its error stream. -/
theorem C9_unknown_syscall_only_records_a0 (ops : HostOps H) (s : State H)
    (h : s.X rv_reg_a7 ∉ SUPPORTED_SYSCALLS) :
    ∃ s1, syscall_handler ops s = some s1 ∧
      s1.X = s.X ∧ s1.F = s.F ∧ s1.halt = s.halt ∧ s1.fd_map = s.fd_map ∧
      s1.mem = s.mem ∧ s1.break_addr = s.break_addr ∧ s1.exit_code = s.exit_code ∧
      s1.staged = s.staged ∧ s1.error = s.X rv_reg_a0 ∧
      s1.host = ops.fprintf_stderr s.host "unknown syscall %d\n" (s.X rv_reg_a7) := by
  simp only [SUPPORTED_SYSCALLS, List.mem_cons, List.mem_singleton, List.not_mem_nil,
    not_or, or_false] at h
  obtain ⟨h1, h2, h3, h4, h5, h6, h7, h8, h9, h10, h11, h12, h13, h14, h15, h16, h17, h18,
    h19, h20⟩ := h
  refine ⟨{ s with
      error := s.X rv_reg_a0
      host := ops.fprintf_stderr s.host "unknown syscall %d\n" (s.X rv_reg_a7) },
    ?_, rfl, rfl, rfl, rfl, rfl, rfl, rfl, rfl, rfl, rfl⟩
  simp only [syscall_handler, dispatch, rv_get_reg, if_neg h1, if_neg h2, if_neg h3, if_neg h4,
    if_neg h5, if_neg h6, if_neg h7, if_neg h8, if_neg h9, if_neg h10, if_neg h11, if_neg h12,
    if_neg h13, if_neg h14, if_neg h15, if_neg h16, if_neg h17, if_neg h18, if_neg h19,
    if_neg h20]

/-- Instance at `vm0` with the unsupported number 3 in `a7` and 77 in `a0`. -/
theorem C9_unknown_syscall_witness :
    ∃ s1, syscall_handler idealHost (rv_set_reg (rv_set_reg vm0 rv_reg_a7 3) rv_reg_a0 77)
        = some s1 ∧
      s1.X rv_reg_a0 = 77 ∧ s1.halt = false ∧ s1.fd_map = [] ∧ s1.break_addr = 65536 ∧
      s1.error = 77 := by
  obtain ⟨s1, h1, h2, _, h4, h5, _, h7, _, _, h10, _⟩ :=
    C9_unknown_syscall_only_records_a0 idealHost
      (rv_set_reg (rv_set_reg vm0 rv_reg_a7 3) rv_reg_a0 77) (by decide)
  refine ⟨s1, h1, ?_, ?_, ?_, ?_, ?_⟩
  · rw [h2]; decide
  · rw [h4]; rfl
  · rw [h5]; rfl
  · rw [h7]; rfl
  · rw [h10]; decide

/-- The handler `syscall_read` on a descriptor that is not in the table. -/
theorem read_absent_fd (ops : HostOps H) (s : State H)
    (h : map_find s.fd_map (s.X rv_reg_a0) = none) :
    ∃ s1, syscall_read ops s = some s1 ∧ failed_without_effect s s1 := by
  refine ⟨rv_set_reg s rv_reg_a0 0xFFFFFFFF, ?_, ?_⟩
  · simp [syscall_read, rv_get_reg, h]
  · exact failed_of_set_reg s s rfl rfl rfl rfl rfl rfl rfl rfl rfl

/-- The handler `syscall_write` on a descriptor that is not in the table: the bytes
are staged, then the lookup result is tested. -/
theorem write_absent_fd (ops : HostOps H) (s : State H)
    (h : map_find s.fd_map (s.X rv_reg_a0) = none) :
    ∃ s1, syscall_write ops s = some s1 ∧ failed_without_effect s s1 := by
  by_cases hc : s.X rv_reg_a2 > PREALLOC_SIZE
  · refine ⟨rv_set_reg { s with staged := s.staged ++ [Staged.memory_read PREALLOC_SIZE] }
      rv_reg_a0 0xFFFFFFFF, ?_, ?_⟩
    · simp [syscall_write, rv_get_reg, h, write_loop, hc]
    · exact failed_of_set_reg s _ rfl rfl rfl rfl rfl rfl rfl rfl rfl
  · refine ⟨rv_set_reg { s with staged := s.staged ++ [Staged.memory_read (s.X rv_reg_a2)] }
      rv_reg_a0 0xFFFFFFFF, ?_, ?_⟩
    · simp [syscall_write, rv_get_reg, h, write_loop, hc]
    · exact failed_of_set_reg s _ rfl rfl rfl rfl rfl rfl rfl rfl rfl

/-- The handler `syscall_lseek` on a descriptor that is not in the table. -/
theorem lseek_absent_fd (ops : HostOps H) (s : State H)
    (h : map_find s.fd_map (s.X rv_reg_a0) = none) :
    failed_without_effect s (syscall_lseek ops s) := by
  have hl : syscall_lseek ops s = rv_set_reg s rv_reg_a0 0xFFFFFFFF := by
    simp [syscall_lseek, rv_get_reg, h]
  rw [hl]
  exact failed_of_set_reg s s rfl rfl rfl rfl rfl rfl rfl rfl rfl

/-- C2: when the descriptor in `a0` is not a key of the table, each of
`read`, `write` and `lseek` returns with the failure sentinel `0xFFFFFFFF` in
`a0` and without any other effect, whatever the buffer address, count, offset
and whence are (for `write` also when the count exceeds the staging
capacity). -/
theorem C2_absent_fd_fails_without_effect (ops : HostOps H) (s : State H)
    (h : s.X rv_reg_a0 ∉ keys s.fd_map) :
    (∃ s1, syscall_read ops s = some s1 ∧ failed_without_effect s s1) ∧
    (∃ s1, syscall_write ops s = some s1 ∧ failed_without_effect s s1) ∧
    failed_without_effect s (syscall_lseek ops s) := by
  have hnone : map_find s.fd_map (s.X rv_reg_a0) = none :=
    (map_find_eq_none_iff _ _).mpr h
  refine ⟨?_, ?_, ?_⟩
  · exact read_absent_fd ops s hnone
  · exact write_absent_fd ops s hnone
  · exact lseek_absent_fd ops s hnone

/-- Instance at `vm0` (empty table) with descriptor 7 and a count of 5000. -/
theorem C2_absent_fd_witness :
    (∃ s1, syscall_read idealHost (set_args vm0 7 200 5000) = some s1 ∧
      failed_without_effect (set_args vm0 7 200 5000) s1) ∧
    (∃ s1, syscall_write idealHost (set_args vm0 7 200 5000) = some s1 ∧
      failed_without_effect (set_args vm0 7 200 5000) s1) ∧
    failed_without_effect (set_args vm0 7 200 5000)
      (syscall_lseek idealHost (set_args vm0 7 200 5000)) :=
  C2_absent_fd_fails_without_effect idealHost (set_args vm0 7 200 5000) (by decide)

/-- C3: for a descriptor `fd >= 3` that is a key of the table and whose host
close succeeds, `close` sets `a0` to 0 and removes exactly the entry of `fd`:
`fd` is no longer a key and every other identifier resolves as before; a
`read`, `write` or `lseek` on `fd` issued while the table is as `close` left
it, with any other arguments, returns with the failure sentinel in `a0`. -/
theorem C3_close_removes_entry (ops : HostOps H) (s : State H) (handle : Nat)
    (hfd : 3 ≤ s.X rv_reg_a0)
    (hkey : map_find s.fd_map (s.X rv_reg_a0) = some handle)
    (hclose : (ops.fclose s.host handle).1 = 0) :
    (syscall_close ops s).X rv_reg_a0 = 0 ∧
    (syscall_close ops s).fd_map = s.fd_map.filter (fun e => e.1 != s.X rv_reg_a0) ∧
    s.X rv_reg_a0 ∉ keys (syscall_close ops s).fd_map ∧
    (∀ k, k ≠ s.X rv_reg_a0 →
      map_find (syscall_close ops s).fd_map k = map_find s.fd_map k) ∧
    (∀ t : State H, t.fd_map = (syscall_close ops s).fd_map → t.X rv_reg_a0 = s.X rv_reg_a0 →
      (∃ t1, syscall_read ops t = some t1 ∧ t1.X rv_reg_a0 = 0xFFFFFFFF) ∧
      (∃ t1, syscall_write ops t = some t1 ∧ t1.X rv_reg_a0 = 0xFFFFFFFF) ∧
      (syscall_lseek ops t).X rv_reg_a0 = 0xFFFFFFFF) := by
  have hge : s.X rv_reg_a0 ≥ 3 := hfd
  have hc : syscall_close ops s =
      rv_set_reg (rv_set_reg { s with
        host := (ops.fclose s.host handle).2
        fd_map := map_erase s.fd_map (s.X rv_reg_a0) } rv_reg_a0 0) rv_reg_a0 0 := by
    simp [syscall_close, rv_get_reg, hge, hkey, hclose]
  have hmap : (syscall_close ops s).fd_map = map_erase s.fd_map (s.X rv_reg_a0) := by
    rw [hc]; rfl
  have habs : s.X rv_reg_a0 ∉ keys (syscall_close ops s).fd_map := by
    rw [hmap, ← map_find_eq_none_iff, map_find_erase]; simp
  refine ⟨?_, ?_, habs, ?_, ?_⟩
  · rw [hc]; simp
  · rw [hmap]; rfl
  · intro k hk
    rw [hmap, map_find_erase, if_neg hk]
  · intro t ht hta
    have habs2 : map_find t.fd_map (t.X rv_reg_a0) = none := by
      rw [ht, hta]; exact (map_find_eq_none_iff _ _).mpr habs
    obtain ⟨t1, h1, h1a⟩ := read_absent_fd ops t habs2
    obtain ⟨t2, h2, h2a⟩ := write_absent_fd ops t habs2
    exact ⟨⟨t1, h1, h1a.1⟩, ⟨t2, h2, h2a.1⟩, (lseek_absent_fd ops t habs2).1⟩

/-- Instance at `vm1`: closing descriptor 3, then reading from it. -/
theorem C3_close_witness :
    (syscall_close idealHost vm1).X rv_reg_a0 = 0 ∧
    (syscall_close idealHost vm1).fd_map = [] ∧
    (∃ t1, syscall_read idealHost (set_args (syscall_close idealHost vm1) 3 200 2)
      = some t1 ∧ t1.X rv_reg_a0 = 0xFFFFFFFF) := by
  have h := C3_close_removes_entry idealHost vm1 100 (by decide) (by decide) (by decide)
  exact ⟨h.1, h.2.1, (h.2.2.2.2 (set_args (syscall_close idealHost vm1) 3 200 2) rfl (by decide)).1⟩

/-! ## Allocation of descriptors -/

theorem syscall_open_fd_map (ops : HostOps H) (s s1 : State H)
    (h : syscall_open ops s = some s1) :
    s1.fd_map = s.fd_map ∨
    ∃ fd handle, find_free_fd s.fd_map = some fd ∧ s1.fd_map = (fd, handle) :: s.fd_map := by
  unfold syscall_open at h
  simp only at h
  split at h
  · simp at h
  · split at h
    · left
      simp only [Option.some.injEq] at h
      rw [← h]; rfl
    · split at h
      · left
        simp only [Option.some.injEq] at h
        rw [← h]; rfl
      · split at h
        · simp at h
        · right
          simp only [Option.some.injEq] at h
          refine ⟨_, _, ?_, by rw [← h]; rfl⟩
          assumption

theorem syscall_open_keys_nodup (ops : HostOps H) (s s1 : State H)
    (h : syscall_open ops s = some s1) (hn : (keys s.fd_map).Nodup) :
    (keys s1.fd_map).Nodup := by
  rcases syscall_open_fd_map ops s s1 h with h1 | ⟨fd, handle, hfd, h1⟩
  · rw [h1]; exact hn
  · rw [h1]
    have hspec := find_free_fd_spec s.fd_map fd hfd
    simp only [keys, List.map_cons, List.nodup_cons]
    exact ⟨hspec.2.2.1, hn⟩

theorem syscall_close_keys_nodup (ops : HostOps H) (s : State H)
    (hn : (keys s.fd_map).Nodup) : (keys (syscall_close ops s).fd_map).Nodup := by
  have h : (syscall_close ops s).fd_map = s.fd_map ∨
      (syscall_close ops s).fd_map = map_erase s.fd_map (s.X rv_reg_a0) := by
    unfold syscall_close
    simp only [rv_get_reg]
    split
    · split
      · split
        · left; rfl
        · right; rfl
      · left; rfl
    · left; rfl
  rcases h with h | h
  · rw [h]; exact hn
  · rw [h, keys_erase]; exact hn.filter _

theorem do_calls_keys_nodup (ops : HostOps H) (cs : List FdCall) :
    ∀ s s2 : State H, (keys s.fd_map).Nodup → do_calls ops s cs = some s2 →
      (keys s2.fd_map).Nodup := by
  induction cs with
  | nil =>
    intro s s2 hn h
    simp only [do_calls, Option.some.injEq] at h
    rw [← h]; exact hn
  | cons c cs ih =>
    intro s s2 hn h
    simp only [do_calls] at h
    cases hc : do_call ops s c with
    | none => rw [hc] at h; simp at h
    | some s1 =>
      rw [hc] at h
      refine ih s1 s2 ?_ h
      cases c with
      | «open» name flags mode =>
        exact syscall_open_keys_nodup ops _ s1 hc (by simpa [set_args] using hn)
      | close fd =>
        simp only [do_call, Option.some.injEq] at hc
        rw [← hc]
        exact syscall_close_keys_nodup ops _ (by simpa using hn)

/-- C1: when `open` succeeds (the name is a string inside guest memory, the
access-mode bits select a host mode and the host open returns `handle`), it
returns, and the identifier `fd` written to `a0` is at least 3, was not a key
of the table, every `i` with `3 <= i < fd` was a key, and the table afterwards
is the old one with the entry `fd -> handle` added.  If the identifiers of the
table were pairwise different before, they are pairwise different after any
further sequence of opens and closes.  The table is assumed to have fewer than
`2^31 - 3` entries, the range of the probe counter `int i`. -/
theorem C1_open_allocates_smallest_free (ops : HostOps H) (s : State H)
    (name_len handle : Nat) (mode_str : String)
    (hname : strlen s.mem (s.X rv_reg_a0) = some name_len)
    (hmode : get_mode_str (s.X rv_reg_a1) (s.X rv_reg_a2) = some mode_str)
    (hopen : (ops.fopen s.host (memory_read s.mem (s.X rv_reg_a0) name_len) mode_str).1
      = some handle)
    (hsize : s.fd_map.length + 3 < 2147483648) :
    ∃ fd s1, syscall_open ops s = some s1 ∧ s1.X rv_reg_a0 = fd ∧
      3 ≤ fd ∧ fd ∉ keys s.fd_map ∧ (∀ i, 3 ≤ i → i < fd → i ∈ keys s.fd_map) ∧
      s1.fd_map = (fd, handle) :: s.fd_map ∧
      (∀ k, map_find s1.fd_map k = if k = fd then some handle else map_find s.fd_map k) ∧
      ((keys s.fd_map).Nodup →
        ∀ cs s2, do_calls ops s1 cs = some s2 → (keys s2.fd_map).Nodup) := by
  obtain ⟨fd, hfd⟩ := find_free_fd_isSome s.fd_map
  obtain ⟨h3, hle, hnew, hsmall⟩ := find_free_fd_spec s.fd_map fd hfd
  have hrun : syscall_open ops s = some (rv_set_reg { s with
      host := (ops.fopen s.host (memory_read s.mem (s.X rv_reg_a0) name_len) mode_str).2
      fd_map := map_insert s.fd_map fd handle } rv_reg_a0 fd) := by
    simp [syscall_open, rv_get_reg, hname, hmode, hopen, hfd]
  refine ⟨fd, _, hrun, ?_, h3, hnew, hsmall, rfl, ?_, ?_⟩
  · rw [rv_set_reg_X_same]
    exact Nat.mod_eq_of_lt (by omega)
  · intro k
    exact map_find_insert s.fd_map fd handle k
  · intro hn cs s2 hcs
    exact do_calls_keys_nodup ops cs _ s2 (syscall_open_keys_nodup ops s _ hrun hn) hcs

/-- Instance at `vm1`, where 3 is taken: the next `open` returns 4. -/
theorem C1_open_witness :
    ∃ s1, syscall_open idealHost (set_args vm1 16 O_WRONLY 0) = some s1 ∧
      s1.X rv_reg_a0 = 4 ∧ s1.fd_map = [(4, 101), (3, 100)] := by
  obtain ⟨fd, s1, h1, h2, h3, h4, h5, h6, _, _⟩ :=
    C1_open_allocates_smallest_free idealHost (set_args vm1 16 O_WRONLY 0) 1 101 "wb"
      (by decide) (by decide) (by decide) (by decide)
  have hfd : fd = 4 := by
    have h3in : (3 : Nat) ∈ keys (set_args vm1 16 O_WRONLY 0).fd_map := by decide
    have hne : fd ≠ 3 := fun h => h4 (h ▸ h3in)
    by_contra hne4
    have h4in := h5 4 (by decide) (by omega)
    exact absurd h4in (by decide)
  subst hfd
  exact ⟨s1, h1, h2, h6⟩

/-! ## Evaluations at concrete inputs -/

/-- The handler `syscall_readint` looks its descriptor up under register 0, whatever
`a0` holds. -/
theorem readint_keys_off_register_zero (ops : HostOps H) (s : State H)
    (h : map_find s.fd_map (s.X 0) = none) :
    syscall_readint ops s = rv_set_reg s rv_reg_a0 0xFFFFFFFF := by
  simp [syscall_readint, rv_get_reg, h]

/-- C8: in `vm1` register `a0` holds 3 (and the zero register holds 0),
descriptor 3 is open on a file whose next token is the integer 42 (scanning it
from the host handle gives 42), and yet `readint` reports the failure sentinel
and leaves the stream where it was: the handler reads its descriptor from
register 0, not from `a0`. -/
theorem C8_readint_ignores_a0 :
    vm1.X rv_reg_a0 = 3 ∧ vm1.X rv_reg_zero = 0 ∧ map_find vm1.fd_map 3 = some 100 ∧
    (idealHost.fscanf vm1.host 100 "%d").1 = 42 ∧
    (syscall_readint idealHost vm1).X rv_reg_a0 = 0xFFFFFFFF ∧
    (syscall_readint idealHost vm1).host.streams 100 = vm1.host.streams 100 := by
  decide

/-- C10: with the bytes `h`, `i`, NUL at the address in `a0`, `writestring`
puts exactly `h`, `i` on standard output, while `writechar` puts
`h`, `h`, `i`, `i`, NUL there: its `printf("%c", c)` runs before the test for
NUL and before the `putchar(c)` of the same byte. -/
theorem C10_writechar_emits_each_byte_twice_and_nul :
    (syscall_writestring idealHost (rv_set_reg vm0 rv_reg_a0 32)).map (fun s => s.host.out)
      = some [104, 105] ∧
    (syscall_writechar idealHost (rv_set_reg vm0 rv_reg_a0 32)).map (fun s => s.host.out)
      = some [104, 104, 105, 105, 0] := by
  decide

/-- C6: reading 5000 bytes from a file that has 2 left.  The first `fread`
asks for 4096 bytes and is short, the loop is left with `count = 4998`, and
the `fread` after the loop asks for 4998 bytes into the 4096-byte staging
buffer. -/
theorem C6_read_requests_more_than_staging_capacity :
    (syscall_read idealHost (set_args vm1 3 200 5000)).map (fun s => s.staged)
      = some [Staged.fread 4096, Staged.memory_write 2, Staged.fread 4998,
          Staged.memory_write 0] ∧
    PREALLOC_SIZE < (Staged.fread 4998).size := by
  decide

/-! ## Guest memory -/

theorem memory_read_length (mem : Nat → Nat) (addr n : Nat) :
    (memory_read mem addr n).length = n := by
  simp [memory_read]

theorem memory_read_getD (mem : Nat → Nat) (addr n i : Nat) (h : i < n) :
    (memory_read mem addr n).getD i 0 = mem (addr + i) := by
  simp [memory_read, List.getD_eq_getElem?_getD, List.getElem?_map, List.getElem?_range h]

theorem memory_read_add (mem : Nat → Nat) (addr n m : Nat) :
    memory_read mem addr (n + m) = memory_read mem addr n ++ memory_read mem (addr + n) m := by
  simp only [memory_read, List.range_add, List.map_append, List.map_map]
  congr 1
  apply List.map_congr_left
  intro i _
  simp [Nat.add_assoc]

theorem memory_write_zero (mem : Nat → Nat) (addr : Nat) (src : List Nat) :
    memory_write mem addr src 0 = mem := by
  funext a
  simp only [memory_write]
  rw [if_neg (by omega)]

theorem memory_write_inside (mem : Nat → Nat) (addr : Nat) (src : List Nat) (n i : Nat)
    (h : i < n) : memory_write mem addr src n (addr + i) = src.getD i 0 := by
  simp only [memory_write]
  rw [if_pos (by omega)]
  congr 1
  omega

theorem memory_write_outside (mem : Nat → Nat) (addr : Nat) (src : List Nat) (n a : Nat)
    (h : a < addr ∨ addr + n ≤ a) : memory_write mem addr src n a = mem a := by
  simp only [memory_write]
  rw [if_neg (by omega)]

theorem memory_write_append (mem : Nat → Nat) (addr : Nat) (xs ys : List Nat) :
    memory_write (memory_write mem addr xs xs.length) (addr + xs.length) ys ys.length
      = memory_write mem addr (xs ++ ys) (xs.length + ys.length) := by
  funext a
  simp only [memory_write]
  by_cases h1 : addr + xs.length ≤ a ∧ a < addr + xs.length + ys.length
  · rw [if_pos h1, if_pos (by omega)]
    rw [List.getD_append_right _ _ _ _ (by omega)]
    congr 1
    omega
  · rw [if_neg h1]
    by_cases h2 : addr ≤ a ∧ a < addr + xs.length
    · rw [if_pos h2, if_pos (by omega)]
      rw [List.getD_append _ _ _ _ (by omega)]
    · rw [if_neg h2, if_neg (by omega)]

/-! ## The ideal host: streams -/

theorem set_stream_self (h : Host) (handle : Nat) (st : Stream)
    (hst : h.streams handle = some st) : h.set_stream handle st = h := by
  cases h
  simp only [Host.set_stream] at *
  congr
  rw [← hst]
  exact Function.update_eq_self _ _

@[simp] theorem set_stream_streams_same (h : Host) (handle : Nat) (st : Stream) :
    (h.set_stream handle st).streams handle = some st := by
  simp [Host.set_stream]

@[simp] theorem set_stream_files (h : Host) (handle : Nat) (st : Stream) :
    (h.set_stream handle st).files = h.files := rfl

@[simp] theorem set_stream_set_stream (h : Host) (handle : Nat) (st st2 : Stream) :
    (h.set_stream handle st).set_stream handle st2 = h.set_stream handle st2 := by
  simp [Host.set_stream]

@[simp] theorem set_stream_content (h : Host) (handle : Nat) (st st2 : Stream) :
    (h.set_stream handle st).content st2 = h.content st2 := rfl

theorem remaining_advance (h : Host) (handle : Nat) (st0 st : Stream) (j : Nat) :
    (h.set_stream handle st0).remaining { st with pos := st.pos + j }
      = (h.remaining st).drop j := by
  simp [Host.remaining, Host.content, List.drop_drop, Nat.add_comm]

theorem ideal_fread_readable (h : Host) (handle n : Nat) (st : Stream)
    (hst : h.streams handle = some st) (hmode : st.mode ≠ "wb") :
    ideal_fread h handle n = ((h.remaining st).take n,
      h.set_stream handle { st with pos := st.pos + ((h.remaining st).take n).length }) := by
  by_cases hn : n = 0
  · subst hn
    simp [ideal_fread, hst, set_stream_self h handle st hst]
  · simp [ideal_fread, hst, hn, hmode]

theorem ideal_fread_unreadable (h : Host) (handle n : Nat) (st : Stream)
    (hst : h.streams handle = some st) (hmode : st.mode = "wb") (hn : n ≠ 0) :
    ideal_fread h handle n = ([], h.set_stream handle { st with err := true }) := by
  simp [ideal_fread, hst, hn, hmode]

theorem ideal_ferror_eq (h : Host) (handle : Nat) (st : Stream)
    (hst : h.streams handle = some st) : ideal_ferror h handle = st.err := by
  simp [ideal_ferror, hst]

@[simp] theorem idealHost_fread : idealHost.fread = ideal_fread := rfl
@[simp] theorem idealHost_fwrite : idealHost.fwrite = ideal_fwrite := rfl
@[simp] theorem idealHost_ferror : idealHost.ferror = ideal_ferror := rfl
@[simp] theorem idealHost_fopen : idealHost.fopen = ideal_fopen := rfl
@[simp] theorem idealHost_fclose : idealHost.fclose = ideal_fclose := rfl

/-! ## The read path on the ideal host -/

theorem read_loop_ideal (handle buf : Nat) :
    ∀ (fuel count total : Nat) (s : State Host) (st : Stream),
      s.host.streams handle = some st → st.mode ≠ "wb" →
      count / 4096 < fuel → total + count < 4294967296 →
      buf + total + min count (s.host.remaining st).length ≤ 4294967296 →
      ∃ j staged1,
        read_loop idealHost handle buf fuel count total s =
          some (count - j, total + j,
            { s with
              host := s.host.set_stream handle { st with pos := st.pos + j }
              mem := memory_write s.mem (buf + total) ((s.host.remaining st).take j) j
              staged := staged1 }) ∧
        j ≤ count ∧ j ≤ (s.host.remaining st).length ∧
        (count - j ≤ 4096 ∨ j = (s.host.remaining st).length) := by
  intro fuel
  induction fuel with
  | zero => intro count total s st _ _ hfuel; omega
  | succ n ih =>
    intro count total s st hst hmode hfuel hsum hwrap
    rw [read_loop]
    by_cases hc : count > PREALLOC_SIZE
    · rw [if_pos hc]
      simp only [idealHost_fread, ideal_fread_readable s.host handle PREALLOC_SIZE st hst hmode]
      have hP : PREALLOC_SIZE = 4096 := rfl
      rw [hP] at hc ⊢
      have hlen : (List.take 4096 (s.host.remaining st)).length
          = min 4096 (s.host.remaining st).length := List.length_take _ _
      by_cases hr : (List.take 4096 (s.host.remaining st)).length = 4096
      · -- a full chunk: the loop goes on
        rw [if_neg (by simpa using hr)]
        have hk : 4096 ≤ (s.host.remaining st).length := by omega
        have hsub : sub32 count (List.take 4096 (s.host.remaining st)).length = count - 4096 := by
          rw [hr]; simp only [sub32]; omega
        have hadd : add32 total (List.take 4096 (s.host.remaining st)).length = total + 4096 := by
          rw [hr]; simp only [add32]; omega
        have hbuf : add32 buf total = buf + total := by
          simp only [add32]; omega
        rw [hsub, hadd, hbuf]
        obtain ⟨j, staged1, hrun, hj1, hj2, hj3⟩ := ih (count - 4096) (total + 4096)
          { s with
            host := s.host.set_stream handle
              { st with pos := st.pos + (List.take 4096 (s.host.remaining st)).length }
            mem := memory_write s.mem (buf + total) (List.take 4096 (s.host.remaining st))
              (List.take 4096 (s.host.remaining st)).length
            staged := s.staged ++ [Staged.fread 4096,
              Staged.memory_write (List.take 4096 (s.host.remaining st)).length] }
          { st with pos := st.pos + (List.take 4096 (s.host.remaining st)).length }
          (by simp) hmode (by omega) (by omega)
          (by
            simp only [remaining_advance, List.length_drop]
            omega)
        simp only [remaining_advance, List.length_drop, hr] at hj2 hj3 hrun
        refine ⟨4096 + j, staged1, ?_, by omega, by omega, by omega⟩
        simp only [hr]
        rw [hrun]
        simp only [set_stream_set_stream]
        have e1 : count - 4096 - j = count - (4096 + j) := by omega
        have e2 : total + 4096 + j = total + (4096 + j) := by omega
        have e3 : st.pos + 4096 + j = st.pos + (4096 + j) := by omega
        have e4 : memory_write
              (memory_write s.mem (buf + total) (List.take 4096 (s.host.remaining st)) 4096)
              (buf + (total + 4096)) (List.take j (List.drop 4096 (s.host.remaining st))) j
            = memory_write s.mem (buf + total) (List.take (4096 + j) (s.host.remaining st))
                (4096 + j) := by
          have hl2 : (List.take j (List.drop 4096 (s.host.remaining st))).length = j := by
            rw [List.length_take, List.length_drop]; omega
          have h := memory_write_append s.mem (buf + total)
            (List.take 4096 (s.host.remaining st))
            (List.take j (List.drop 4096 (s.host.remaining st)))
          rw [hl2, hr, ← List.take_add] at h
          have ea : buf + (total + 4096) = buf + total + 4096 := by omega
          rw [ea, h]
        rw [e1, e2, e3, e4]
      · -- a short chunk: the loop is left
        rw [if_pos (by simpa using hr)]
        have hk : (s.host.remaining st).length < 4096 := by omega
        have hr2 : (List.take 4096 (s.host.remaining st)).length
            = (s.host.remaining st).length := by omega
        have htake : List.take 4096 (s.host.remaining st) = s.host.remaining st :=
          List.take_of_length_le (by omega)
        refine ⟨(s.host.remaining st).length,
          s.staged ++ [Staged.fread 4096, Staged.memory_write (s.host.remaining st).length],
          ?_, by omega, le_refl _, Or.inr rfl⟩
        rw [htake]
        have hsub : sub32 count (s.host.remaining st).length
            = count - (s.host.remaining st).length := by
          simp only [sub32]; omega
        have hadd : add32 total (s.host.remaining st).length
            = total + (s.host.remaining st).length := by
          simp only [add32]; omega
        rw [hsub, hadd]
        by_cases hz : (s.host.remaining st).length = 0
        · simp only [hz, memory_write_zero]
        · have hbuf : add32 buf total = buf + total := by
            simp only [add32]; omega
          rw [hbuf, List.take_of_length_le (le_refl _)]
    · rw [if_neg hc]
      refine ⟨0, s.staged, ?_, by omega, by omega, Or.inl (by simp only [PREALLOC_SIZE] at hc; omega)⟩
      simp only [Nat.sub_zero, Nat.add_zero, memory_write_zero]
      rw [set_stream_self s.host handle st hst]

theorem syscall_read_ideal (s : State Host) (handle : Nat) (st : Stream)
    (hfd : map_find s.fd_map (s.X rv_reg_a0) = some handle)
    (hst : s.host.streams handle = some st) (hmode : st.mode ≠ "wb")
    (hc : s.X rv_reg_a2 < 4294967296)
    (hwrap : s.X rv_reg_a1 + min (s.X rv_reg_a2) (s.host.remaining st).length ≤ 4294967296) :
    ∃ staged1, syscall_read idealHost s = some (rv_set_reg
      { s with
        host := s.host.set_stream handle
          { st with pos := st.pos + min (s.X rv_reg_a2) (s.host.remaining st).length }
        mem := memory_write s.mem (s.X rv_reg_a1)
          ((s.host.remaining st).take (min (s.X rv_reg_a2) (s.host.remaining st).length))
          (min (s.X rv_reg_a2) (s.host.remaining st).length)
        staged := staged1 } rv_reg_a0
      (if min (s.X rv_reg_a2) (s.host.remaining st).length ≠ s.X rv_reg_a2 ∧ st.err = true
        then 0xFFFFFFFF else min (s.X rv_reg_a2) (s.host.remaining st).length)) := by
  obtain ⟨j, staged1, hrun, hj1, hj2, hj3⟩ := read_loop_ideal handle (s.X rv_reg_a1)
    (s.X rv_reg_a2 + 1) (s.X rv_reg_a2) 0 s st hst hmode
    (by have := Nat.div_le_self (s.X rv_reg_a2) 4096; omega) (by omega) (by omega)
  generalize hR : s.host.remaining st = R at *
  generalize hcnt : s.X rv_reg_a2 = c at *
  generalize hbuf : s.X rv_reg_a1 = buf at *
  -- the transfer after the loop
  have hl2 : (List.take (c - j) (List.drop j R)).length = min c R.length - j := by
    rw [List.length_take, List.length_drop]; omega
  have hfin : ideal_fread (s.host.set_stream handle { st with pos := st.pos + j }) handle (c - j)
      = (List.take (c - j) (List.drop j R),
          s.host.set_stream handle { st with pos := st.pos + min c R.length }) := by
    rw [ideal_fread_readable _ handle (c - j) { st with pos := st.pos + j } (by simp) hmode]
    simp only [remaining_advance, hR, set_stream_set_stream, hl2]
    have e : st.pos + j + (min c R.length - j) = st.pos + min c R.length := by omega
    rw [e]
  have hmem : memory_write (memory_write s.mem (buf + 0) (List.take j R) j)
        (add32 buf (0 + j)) (List.take (c - j) (List.drop j R)) (min c R.length - j)
      = memory_write s.mem buf (List.take (min c R.length) R) (min c R.length) := by
    by_cases hz : min c R.length - j = 0
    · rw [hz, memory_write_zero]
      have e : j = min c R.length := by omega
      rw [← e, Nat.add_zero]
    · have ea : add32 buf (0 + j) = buf + 0 + j := by simp only [add32]; omega
      have hl1 : (List.take j R).length = j := by rw [List.length_take]; omega
      have h := memory_write_append s.mem (buf + 0) (List.take j R)
        (List.take (c - j) (List.drop j R))
      rw [hl1, hl2, ← List.take_add] at h
      have e1 : j + (c - j) = c := by omega
      have e2 : j + (min c R.length - j) = min c R.length := by omega
      have e3 : List.take c R = List.take (min c R.length) R := by
        rw [List.take_eq_take]; omega
      rw [e1, e2, e3] at h
      rw [ea, h, Nat.add_zero]
  have hrun2 : read_loop idealHost handle buf (c + 1) c 0 s = _ := hrun
  refine ⟨staged1 ++ [Staged.fread (c - j), Staged.memory_write (min c R.length - j)], ?_⟩
  simp only [syscall_read, rv_get_reg, hfd, hcnt, hbuf, hrun2, idealHost_fread, hfin, hl2, hmem,
    idealHost_ferror, rv_set_reg_X_other, ne_eq, set_stream_streams_same, ideal_ferror]
  have et : add32 (0 + j) (min c R.length - j) = min c R.length := by
    simp only [add32]; omega
  rw [et]
  by_cases hcond : ¬ min c R.length = c ∧ st.err = true
  · rw [if_pos, if_pos hcond]
    simpa [rv_set_reg, hcnt] using hcond
  · rw [if_neg, if_neg hcond]
    simpa [rv_set_reg, hcnt] using hcond

theorem syscall_read_ideal_unreadable (s : State Host) (handle : Nat) (st : Stream)
    (hfd : map_find s.fd_map (s.X rv_reg_a0) = some handle)
    (hst : s.host.streams handle = some st) (hmode : st.mode = "wb")
    (hc : s.X rv_reg_a2 < 4294967296) (hpos : s.X rv_reg_a2 ≠ 0) :
    ∃ staged1, syscall_read idealHost s = some (rv_set_reg
      { s with
        host := s.host.set_stream handle { st with err := true }
        staged := staged1 } rv_reg_a0 0xFFFFFFFF) := by
  generalize hcnt : s.X rv_reg_a2 = c at *
  have hfr : ∀ n, n ≠ 0 → ideal_fread s.host handle n
      = ([], s.host.set_stream handle { st with err := true }) :=
    fun n hn => ideal_fread_unreadable s.host handle n st hst hmode hn
  have hfr2 : ∀ n, n ≠ 0 →
      ideal_fread (s.host.set_stream handle { st with err := true }) handle n
      = ([], s.host.set_stream handle { st with err := true }) := by
    intro n hn
    rw [ideal_fread_unreadable _ handle n { st with err := true } (by simp) hmode hn]
    simp
  have hs0 : sub32 c 0 = c := by simp only [sub32]; omega
  have ha0 : add32 0 0 = 0 := by decide
  have hne : ¬ (0 = c) := fun h => hpos h.symm
  by_cases hbig : c > PREALLOC_SIZE
  · refine ⟨s.staged ++ [Staged.fread PREALLOC_SIZE, Staged.memory_write 0]
      ++ [Staged.fread c, Staged.memory_write 0], ?_⟩
    have h1 := hfr PREALLOC_SIZE (by decide)
    have h2 := hfr2 c hpos
    have hloop : read_loop idealHost handle (s.X rv_reg_a1) (c + 1) c 0 s
        = some (c, 0, { s with
            host := s.host.set_stream handle { st with err := true }
            staged := s.staged ++ [Staged.fread PREALLOC_SIZE, Staged.memory_write 0] }) := by
      rw [read_loop, if_pos hbig]
      simp only [idealHost_fread, h1, List.length_nil, memory_write_zero, hs0, ha0]
      rw [if_pos (by decide)]
    simp only [syscall_read, rv_get_reg, hfd, hcnt, hloop, idealHost_fread, h2,
      List.length_nil, memory_write_zero, idealHost_ferror, ideal_ferror,
      set_stream_streams_same, ha0, ne_eq, hne, not_false_eq_true, and_self, if_true]
  · refine ⟨s.staged ++ [Staged.fread c, Staged.memory_write 0], ?_⟩
    have h1 := hfr c hpos
    have hloop : read_loop idealHost handle (s.X rv_reg_a1) (c + 1) c 0 s = some (c, 0, s) := by
      rw [read_loop, if_neg hbig]
    simp only [syscall_read, rv_get_reg, hfd, hcnt, hloop, idealHost_fread, h1,
      List.length_nil, memory_write_zero, idealHost_ferror, ideal_ferror,
      set_stream_streams_same, ha0, ne_eq, hne, not_false_eq_true, and_self, if_true]

theorem take_getD (l : List Nat) (m i : Nat) (h : i < m) :
    (l.take m).getD i 0 = l.getD i 0 := by
  simp [List.getD_eq_getElem?_getD, List.getElem?_take, h]

/-- C5: on the ideal host, for a descriptor in the table whose stream has `k`
bytes left and a requested count `c` (any 32-bit value, with the target range
inside guest memory), `read` returns; `total`, the number of bytes by which
the stream advanced, is what `a0` reports, except that `a0` is the failure
sentinel exactly when `total` differs from `c` and the error indicator of the
stream is set.  When the error indicator is clear, `total = min k c`, `a0` is
`min k c`, guest memory at `buf .. buf + min k c - 1` holds the first
`min k c` remaining file bytes in order, and no other guest byte changed. -/
theorem C5_read_reports_bytes_transferred (s : State Host) (handle : Nat) (st : Stream)
    (hfd : map_find s.fd_map (s.X rv_reg_a0) = some handle)
    (hst : s.host.streams handle = some st)
    (hc : s.X rv_reg_a2 < 4294967296)
    (hwrap : s.X rv_reg_a1 + min (s.host.remaining st).length (s.X rv_reg_a2) ≤ 4294967296) :
    ∃ s1 st1 total,
      syscall_read idealHost s = some s1 ∧
      s1.host.streams handle = some st1 ∧ st1.pos = st.pos + total ∧
      s1.X rv_reg_a0 =
        (if total ≠ s.X rv_reg_a2 ∧ idealHost.ferror s1.host handle = true
          then 0xFFFFFFFF else total) ∧
      (idealHost.ferror s1.host handle = false →
        total = min (s.host.remaining st).length (s.X rv_reg_a2) ∧
        s1.X rv_reg_a0 = min (s.host.remaining st).length (s.X rv_reg_a2) ∧
        (∀ i, i < min (s.host.remaining st).length (s.X rv_reg_a2) →
          s1.mem (s.X rv_reg_a1 + i) = (s.host.remaining st).getD i 0) ∧
        (∀ a, a < s.X rv_reg_a1 ∨
            s.X rv_reg_a1 + min (s.host.remaining st).length (s.X rv_reg_a2) ≤ a →
          s1.mem a = s.mem a)) := by
  rw [Nat.min_comm] at hwrap
  by_cases hmode : st.mode = "wb" ∧ s.X rv_reg_a2 ≠ 0
  · -- a stream that cannot be read: nothing moves, the error indicator is set
    obtain ⟨staged1, hrun⟩ := syscall_read_ideal_unreadable s handle st hfd hst hmode.1 hc hmode.2
    refine ⟨_, { st with err := true }, 0, hrun, by simp, rfl, ?_, ?_⟩
    · have h0 : ¬ 0 = s.X rv_reg_a2 := fun h => hmode.2 h.symm
      simp [ideal_ferror, h0]
    · intro hne
      simp [ideal_ferror] at hne
  · have hrd : ∃ staged1, syscall_read idealHost s = some (rv_set_reg
        { s with
          host := s.host.set_stream handle
            { st with pos := st.pos + min (s.X rv_reg_a2) (s.host.remaining st).length }
          mem := memory_write s.mem (s.X rv_reg_a1)
            ((s.host.remaining st).take (min (s.X rv_reg_a2) (s.host.remaining st).length))
            (min (s.X rv_reg_a2) (s.host.remaining st).length)
          staged := staged1 } rv_reg_a0
        (if min (s.X rv_reg_a2) (s.host.remaining st).length ≠ s.X rv_reg_a2 ∧ st.err = true
          then 0xFFFFFFFF else min (s.X rv_reg_a2) (s.host.remaining st).length)) := by
      by_cases hm : st.mode = "wb"
      · -- nothing is asked for: reading from an unreadable stream is not attempted
        have hz : s.X rv_reg_a2 = 0 := by
          by_contra hne; exact hmode ⟨hm, hne⟩
        refine ⟨s.staged ++ [Staged.fread 0, Staged.memory_write 0], ?_⟩
        have hfr : ideal_fread s.host handle 0 = ([], s.host) := by
          simp [ideal_fread, hst]
        simp only [syscall_read, rv_get_reg, hfd, hz, read_loop, PREALLOC_SIZE, idealHost_fread,
          hfr, List.length_nil, memory_write_zero, Nat.zero_min, Nat.add_zero, List.take_zero]
        rw [set_stream_self s.host handle st hst]
        simp [add32, rv_set_reg, hfr, hz, memory_write_zero]
      · exact syscall_read_ideal s handle st hfd hst hm hc hwrap
    obtain ⟨staged1, hrun⟩ := hrd
    generalize hm : min (s.X rv_reg_a2) (s.host.remaining st).length = m at *
    have hm2 : min (s.host.remaining st).length (s.X rv_reg_a2) = m := by
      rw [Nat.min_comm]; exact hm
    have hmlt : m < 4294967296 := by omega
    rw [hm2]
    refine ⟨_, { st with pos := st.pos + m }, m, hrun, by simp, rfl, ?_, ?_⟩
    · simp only [rv_set_reg_X_same, rv_set_reg_host, idealHost_ferror, ideal_ferror,
        set_stream_streams_same]
      by_cases hcond : m ≠ s.X rv_reg_a2 ∧ st.err = true
      · simp only [if_pos hcond]
      · simp only [if_neg hcond]
        exact Nat.mod_eq_of_lt hmlt
    · intro hne
      simp only [rv_set_reg_host, idealHost_ferror, ideal_ferror, set_stream_streams_same] at hne
      refine ⟨rfl, ?_, ?_, ?_⟩
      · simp only [rv_set_reg_X_same, hne]
        simp [Nat.mod_eq_of_lt hmlt]
      · intro i hi
        simp only [rv_set_reg_mem]
        rw [memory_write_inside _ _ _ _ _ hi, take_getD _ _ _ hi]
      · intro a ha
        simp only [rv_set_reg_mem]
        exact memory_write_outside _ _ _ _ _ ha

/-- Instance at `vm1`: 5000 bytes asked from a file with 2 bytes left. -/
theorem C5_read_witness :
    ∃ s1, syscall_read idealHost (set_args vm1 3 200 5000) = some s1 ∧
      s1.X rv_reg_a0 = 2 ∧ s1.mem 200 = 52 ∧ s1.mem 201 = 50 ∧ s1.mem 202 = 0 := by
  obtain ⟨s1, st1, total, h1, _, _, _, h5⟩ :=
    C5_read_reports_bytes_transferred (set_args vm1 3 200 5000) 100 ⟨[116], "rb", 0, false⟩
      (by decide) (by decide) (by decide) (by decide)
  have herr : idealHost.ferror s1.host 100 = false := by
    have h : (syscall_read idealHost (set_args vm1 3 200 5000)).map
        (fun t => idealHost.ferror t.host 100) = some false := by decide
    rw [h1] at h
    simpa using h
  obtain ⟨_, ha0, hin, hout⟩ := h5 herr
  refine ⟨s1, h1, ha0, hin 0 (by decide), hin 1 (by decide), ?_⟩
  rw [hout 202 (Or.inr (by decide))]
  decide

/-! ## The write path on the ideal host -/

theorem append_to_nil (h : Host) (handle : Nat) (st : Stream) (content : List Nat)
    (hst : h.streams handle = some st) (hfile : h.files st.path = some content) :
    h.append_to handle st [] = h := by
  have hc : h.content st = content := by simp [Host.content, hfile]
  have hf : Function.update h.files st.path (some (content ++ [])) = h.files := by
    rw [List.append_nil, ← hfile]; exact Function.update_eq_self _ _
  simp only [Host.append_to, hc, hf, List.length_nil, Nat.add_zero]
  exact set_stream_self h handle st hst

@[simp] theorem append_to_streams (h : Host) (handle : Nat) (st : Stream) (data : List Nat) :
    (h.append_to handle st data).streams handle
      = some { st with pos := st.pos + data.length } := by
  simp [Host.append_to]

@[simp] theorem append_to_files (h : Host) (handle : Nat) (st : Stream) (data : List Nat) :
    (h.append_to handle st data).files st.path = some (h.content st ++ data) := by
  simp [Host.append_to]

@[simp] theorem append_to_next (h : Host) (handle : Nat) (st : Stream) (data : List Nat) :
    (h.append_to handle st data).next = h.next := rfl

theorem append_to_append_to (h : Host) (handle : Nat) (st : Stream) (d1 d2 : List Nat) :
    (h.append_to handle st d1).append_to handle { st with pos := st.pos + d1.length } d2
      = h.append_to handle st (d1 ++ d2) := by
  simp [Host.append_to, Host.set_stream, Host.content, List.append_assoc, Nat.add_assoc]

theorem ideal_fwrite_at_end (h : Host) (handle : Nat) (data : List Nat) (st : Stream)
    (content : List Nat) (hst : h.streams handle = some st) (hmode : st.mode = "wb")
    (hfile : h.files st.path = some content) (hpos : st.pos = content.length) :
    ideal_fwrite h handle data = (data.length, h.append_to handle st data) := by
  by_cases hd : data = []
  · subst hd
    rw [append_to_nil h handle st content hst hfile]
    simp [ideal_fwrite, hst]
  · have hc : h.content st = content := by simp [Host.content, hfile]
    have hdrop : List.drop (content.length + data.length) content = [] :=
      List.drop_eq_nil_of_le (by omega)
    simp [ideal_fwrite, hst, hd, hmode, hc, hpos, Host.append_to, hdrop]

theorem write_loop_ideal (handle buffer : Nat) :
    ∀ (fuel count total : Nat) (s : State Host) (st : Stream) (content : List Nat),
      s.host.streams handle = some st → st.mode = "wb" →
      s.host.files st.path = some content → st.pos = content.length →
      count / 4096 < fuel → total + count < 4294967296 →
      buffer + total + count ≤ 4294967296 →
      ∃ j staged1,
        write_loop idealHost (some handle) buffer fuel count total s =
          some (WriteLoop.done (count - j) (total + j)
            { s with
              host := s.host.append_to handle st (memory_read s.mem (buffer + total) j)
              staged := staged1 }) ∧
        j ≤ count ∧ count - j ≤ 4096 := by
  intro fuel
  induction fuel with
  | zero => intro count total s st content _ _ _ _ hfuel; omega
  | succ n ih =>
    intro count total s st content hst hmode hfile hpos hfuel hsum hwrap
    rw [write_loop]
    by_cases hc : count > PREALLOC_SIZE
    · rw [if_pos hc]
      have hP : PREALLOC_SIZE = 4096 := rfl
      rw [hP] at hc ⊢
      have hbuf : add32 buffer total = buffer + total := by
        simp only [add32]; omega
      have hw := ideal_fwrite_at_end s.host handle (memory_read s.mem (buffer + total) 4096)
        st content hst hmode hfile hpos
      rw [memory_read_length] at hw
      have hsub : sub32 count 4096 = count - 4096 := by simp only [sub32]; omega
      have hadd : add32 total 4096 = total + 4096 := by simp only [add32]; omega
      simp only [idealHost_fwrite, hbuf, hw, ne_eq, not_true_eq_false, false_and, if_false,
        hsub, hadd]
      have hcontent : s.host.content st = content := by simp [Host.content, hfile]
      obtain ⟨j, staged1, hrun, hj1, hj2⟩ := ih (count - 4096) (total + 4096)
        { s with
          host := s.host.append_to handle st (memory_read s.mem (buffer + total) 4096)
          staged := s.staged ++ [Staged.memory_read 4096] ++ [Staged.fwrite 4096] }
        { st with pos := st.pos + (memory_read s.mem (buffer + total) 4096).length }
        (content ++ memory_read s.mem (buffer + total) 4096)
        (by simp) hmode (by simp [hcontent])
        (by simp [hpos]) (by omega) (by omega) (by omega)
      refine ⟨4096 + j, staged1, ?_, by omega, by omega⟩
      rw [hrun]
      simp only [append_to_append_to]
      have e1 : count - 4096 - j = count - (4096 + j) := by omega
      have e2 : total + 4096 + j = total + (4096 + j) := by omega
      have e3 : memory_read s.mem (buffer + total) 4096
            ++ memory_read s.mem (buffer + (total + 4096)) j
          = memory_read s.mem (buffer + total) (4096 + j) := by
        rw [memory_read_add]
        have ea : buffer + (total + 4096) = buffer + total + 4096 := by omega
        rw [ea]
      rw [e1, e2, e3]
    · rw [if_neg hc]
      refine ⟨0, s.staged, ?_, by omega, by simp only [PREALLOC_SIZE] at hc; omega⟩
      have hz : memory_read s.mem (buffer + total) 0 = [] := rfl
      rw [hz, append_to_nil s.host handle st content hst hfile]
      rfl

theorem syscall_write_ideal (s : State Host) (handle : Nat) (st : Stream) (content : List Nat)
    (hfd : map_find s.fd_map (s.X rv_reg_a0) = some handle)
    (hst : s.host.streams handle = some st) (hmode : st.mode = "wb")
    (hfile : s.host.files st.path = some content) (hpos : st.pos = content.length)
    (hc : s.X rv_reg_a2 < 4294967296)
    (hwrap : s.X rv_reg_a1 + s.X rv_reg_a2 ≤ 4294967296) :
    ∃ staged1, syscall_write idealHost s = some (rv_set_reg
      { s with
        host := s.host.append_to handle st (memory_read s.mem (s.X rv_reg_a1) (s.X rv_reg_a2))
        staged := staged1 } rv_reg_a0 (s.X rv_reg_a2)) := by
  obtain ⟨j, staged1, hrun, hj1, hj2⟩ := write_loop_ideal handle (s.X rv_reg_a1)
    (s.X rv_reg_a2 + 1) (s.X rv_reg_a2) 0 s st content hst hmode hfile hpos
    (by have := Nat.div_le_self (s.X rv_reg_a2) 4096; omega) (by omega) (by omega)
  generalize hcnt : s.X rv_reg_a2 = c at *
  generalize hbuf : s.X rv_reg_a1 = buf at *
  have hcontent : s.host.content st = content := by simp [Host.content, hfile]
  have hw := ideal_fwrite_at_end
    (s.host.append_to handle st (memory_read s.mem (buf + 0) j)) handle
    (memory_read s.mem (add32 buf (0 + j)) (c - j))
    { st with pos := st.pos + (memory_read s.mem (buf + 0) j).length }
    (content ++ memory_read s.mem (buf + 0) j)
    (by simp) hmode (by simp [hcontent]) (by simp [hpos])
  rw [append_to_append_to, memory_read_length] at hw
  have hdata : memory_read s.mem (buf + 0) j ++ memory_read s.mem (add32 buf (0 + j)) (c - j)
      = memory_read s.mem buf c := by
    by_cases hz : c - j = 0
    · have e : j = c := by omega
      rw [hz, e]
      have hnil : memory_read s.mem (add32 buf (0 + c)) 0 = [] := rfl
      rw [hnil, List.append_nil, Nat.add_zero]
    · have ea : add32 buf (0 + j) = buf + 0 + j := by simp only [add32]; omega
      rw [ea, ← memory_read_add]
      have e1 : j + (c - j) = c := by omega
      rw [e1, Nat.add_zero]
  rw [hdata] at hw
  have hrun2 : write_loop idealHost (some handle) buf (c + 1) c 0 s = _ := hrun
  refine ⟨staged1 ++ [Staged.memory_read (c - j)] ++ [Staged.fwrite (c - j)], ?_⟩
  have et : add32 (0 + j) (c - j) = c := by simp only [add32]; omega
  simp only [syscall_write, rv_get_reg, hfd, hcnt, hbuf, hrun2, idealHost_fwrite, hw,
    ne_eq, not_true_eq_false, false_and, if_false, et, if_true]

/-! ## Steps of the round trip -/

@[simp] theorem set_args_X_a0 (s : State H) (a b c : Nat) :
    (set_args s a b c).X rv_reg_a0 = a % 4294967296 := by
  simp [set_args, rv_set_reg, rv_reg_a0, rv_reg_a1, rv_reg_a2]

@[simp] theorem set_args_X_a1 (s : State H) (a b c : Nat) :
    (set_args s a b c).X rv_reg_a1 = b % 4294967296 := by
  simp [set_args, rv_set_reg, rv_reg_a0, rv_reg_a1, rv_reg_a2]

@[simp] theorem set_args_X_a2 (s : State H) (a b c : Nat) :
    (set_args s a b c).X rv_reg_a2 = c % 4294967296 := by
  simp [set_args, rv_set_reg, rv_reg_a0, rv_reg_a1, rv_reg_a2]

@[simp] theorem set_args_mem (s : State H) (a b c : Nat) : (set_args s a b c).mem = s.mem := rfl
@[simp] theorem set_args_fd_map (s : State H) (a b c : Nat) :
    (set_args s a b c).fd_map = s.fd_map := rfl
@[simp] theorem set_args_host (s : State H) (a b c : Nat) :
    (set_args s a b c).host = s.host := rfl

theorem syscall_open_eq (ops : HostOps H) (s : State H) (name_len handle fd : Nat)
    (mode_str : String)
    (hname : strlen s.mem (s.X rv_reg_a0) = some name_len)
    (hmode : get_mode_str (s.X rv_reg_a1) (s.X rv_reg_a2) = some mode_str)
    (hopen : (ops.fopen s.host (memory_read s.mem (s.X rv_reg_a0) name_len) mode_str).1
      = some handle)
    (hfd : find_free_fd s.fd_map = some fd) :
    syscall_open ops s = some (rv_set_reg { s with
      host := (ops.fopen s.host (memory_read s.mem (s.X rv_reg_a0) name_len) mode_str).2
      fd_map := map_insert s.fd_map fd handle } rv_reg_a0 fd) := by
  simp [syscall_open, rv_get_reg, hname, hmode, hopen, hfd]

theorem open_ideal_wb (s : State Host) (name_len : Nat)
    (hname : strlen s.mem (s.X rv_reg_a0) = some name_len)
    (hflags : s.X rv_reg_a1 &&& O_ACCMODE = O_WRONLY)
    (hsize : s.fd_map.length + 3 < 4294967296) :
    ∃ s1 fd, syscall_open idealHost s = some s1 ∧ s1.X rv_reg_a0 = fd ∧ 3 ≤ fd ∧
      fd ≤ s.fd_map.length + 3 ∧ s1.mem = s.mem ∧
      s1.fd_map = (fd, s.host.next) :: s.fd_map ∧
      s1.host.streams s.host.next
        = some ⟨memory_read s.mem (s.X rv_reg_a0) name_len, "wb", 0, false⟩ ∧
      s1.host.files (memory_read s.mem (s.X rv_reg_a0) name_len) = some [] ∧
      s1.host.next = s.host.next + 1 := by
  obtain ⟨fd, hfd⟩ := find_free_fd_isSome s.fd_map
  obtain ⟨h3, hle, _, _⟩ := find_free_fd_spec s.fd_map fd hfd
  have hmode : get_mode_str (s.X rv_reg_a1) (s.X rv_reg_a2) = some "wb" := by
    simp [get_mode_str, hflags, O_RDONLY, O_WRONLY]
  have hop : ideal_fopen s.host (memory_read s.mem (s.X rv_reg_a0) name_len) "wb"
      = (some s.host.next, { s.host with
          files := Function.update s.host.files (memory_read s.mem (s.X rv_reg_a0) name_len)
            (some [])
          streams := Function.update s.host.streams s.host.next
            (some ⟨memory_read s.mem (s.X rv_reg_a0) name_len, "wb", 0, false⟩)
          next := s.host.next + 1 }) := by
    simp [ideal_fopen]
  have hrun := syscall_open_eq idealHost s name_len s.host.next fd "wb" hname hmode
    (by rw [idealHost_fopen, hop]) hfd
  refine ⟨_, fd, hrun, ?_, h3, hle, rfl, rfl, ?_, ?_, ?_⟩
  · rw [rv_set_reg_X_same]; exact Nat.mod_eq_of_lt (by omega)
  · simp [hop]
  · simp [hop]
  · simp [hop]

theorem open_ideal_rb (s : State Host) (name_len : Nat) (content : List Nat)
    (hname : strlen s.mem (s.X rv_reg_a0) = some name_len)
    (hflags : s.X rv_reg_a1 &&& O_ACCMODE = O_RDONLY)
    (hfile : s.host.files (memory_read s.mem (s.X rv_reg_a0) name_len) = some content)
    (hsize : s.fd_map.length + 3 < 4294967296) :
    ∃ s1 fd, syscall_open idealHost s = some s1 ∧ s1.X rv_reg_a0 = fd ∧ 3 ≤ fd ∧
      fd ≤ s.fd_map.length + 3 ∧ s1.mem = s.mem ∧
      s1.fd_map = (fd, s.host.next) :: s.fd_map ∧
      s1.host.streams s.host.next
        = some ⟨memory_read s.mem (s.X rv_reg_a0) name_len, "rb", 0, false⟩ ∧
      s1.host.files = s.host.files := by
  obtain ⟨fd, hfd⟩ := find_free_fd_isSome s.fd_map
  obtain ⟨h3, hle, _, _⟩ := find_free_fd_spec s.fd_map fd hfd
  have hmode : get_mode_str (s.X rv_reg_a1) (s.X rv_reg_a2) = some "rb" := by
    simp [get_mode_str, hflags, O_RDONLY]
  have hop : ideal_fopen s.host (memory_read s.mem (s.X rv_reg_a0) name_len) "rb"
      = (some s.host.next, { s.host with
          streams := Function.update s.host.streams s.host.next
            (some ⟨memory_read s.mem (s.X rv_reg_a0) name_len, "rb", 0, false⟩)
          next := s.host.next + 1 }) := by
    simp [ideal_fopen, hfile]
  have hrun := syscall_open_eq idealHost s name_len s.host.next fd "rb" hname hmode
    (by rw [idealHost_fopen, hop]) hfd
  refine ⟨_, fd, hrun, ?_, h3, hle, rfl, rfl, ?_, ?_⟩
  · rw [rv_set_reg_X_same]; exact Nat.mod_eq_of_lt (by omega)
  · simp [hop]
  · simp [hop]

theorem write_ideal_facts (s : State Host) (handle : Nat) (st : Stream) (content : List Nat)
    (hfd : map_find s.fd_map (s.X rv_reg_a0) = some handle)
    (hst : s.host.streams handle = some st) (hmode : st.mode = "wb")
    (hfile : s.host.files st.path = some content) (hpos : st.pos = content.length)
    (hc : s.X rv_reg_a2 < 4294967296)
    (hwrap : s.X rv_reg_a1 + s.X rv_reg_a2 ≤ 4294967296) :
    ∃ s1, syscall_write idealHost s = some s1 ∧ s1.X rv_reg_a0 = s.X rv_reg_a2 ∧
      s1.mem = s.mem ∧ s1.fd_map = s.fd_map ∧
      s1.host.streams handle = some { st with pos := st.pos + s.X rv_reg_a2 } ∧
      s1.host.files st.path
        = some (content ++ memory_read s.mem (s.X rv_reg_a1) (s.X rv_reg_a2)) ∧
      s1.host.next = s.host.next := by
  obtain ⟨staged1, hrun⟩ := syscall_write_ideal s handle st content hfd hst hmode hfile hpos
    hc hwrap
  have hcontent : s.host.content st = content := by simp [Host.content, hfile]
  refine ⟨_, hrun, ?_, rfl, rfl, ?_, ?_, rfl⟩
  · rw [rv_set_reg_X_same]; exact Nat.mod_eq_of_lt hc
  · simp [memory_read_length]
  · simp [hcontent]

theorem close_ideal_facts (s : State Host) (handle : Nat) (st : Stream)
    (h3 : 3 ≤ s.X rv_reg_a0)
    (hfd : map_find s.fd_map (s.X rv_reg_a0) = some handle)
    (hst : s.host.streams handle = some st) :
    (syscall_close idealHost s).X rv_reg_a0 = 0 ∧
    (syscall_close idealHost s).mem = s.mem ∧
    (syscall_close idealHost s).fd_map = map_erase s.fd_map (s.X rv_reg_a0) ∧
    (syscall_close idealHost s).host.files = s.host.files ∧
    (syscall_close idealHost s).host.next = s.host.next := by
  have hge : s.X rv_reg_a0 ≥ 3 := h3
  have hcl : ideal_fclose s.host handle
      = (0, { s.host with streams := Function.update s.host.streams handle none }) := by
    simp [ideal_fclose, hst]
  have hc : syscall_close idealHost s =
      rv_set_reg (rv_set_reg { s with
        host := { s.host with streams := Function.update s.host.streams handle none }
        fd_map := map_erase s.fd_map (s.X rv_reg_a0) } rv_reg_a0 0) rv_reg_a0 0 := by
    simp [syscall_close, rv_get_reg, hge, hfd, hcl]
  rw [hc]
  exact ⟨by simp, rfl, rfl, rfl, rfl⟩

/-- C4: on the ideal host (where `fwrite` stores every byte and `fread` returns
`min requested remaining` bytes), for every `N` and every `N`-byte guest
buffer at `buf` inside the 32-bit address space: opening a file write-only,
writing the buffer, closing, opening the same name read-only and reading `N`
bytes to `buf2` all return; `write` reports `N`, `close` reports 0, `read`
reports `N`, and afterwards the `N` bytes of guest memory at `buf2` are, in
order, the `N` bytes that were at `buf`. -/
theorem C4_write_read_round_trip (s0 : State Host) (name name_len buf buf2 N : Nat)
    (hname : strlen s0.mem name = some name_len)
    (hnm : name < 4294967296) (hbuf : buf < 4294967296) (hbuf2 : buf2 < 4294967296)
    (hN : N < 4294967296)
    (hfit : buf + N ≤ 4294967296) (hfit2 : buf2 + N ≤ 4294967296)
    (hsize : s0.fd_map.length + 3 < 2147483648) :
    ∃ (s1 s2 s4 s5 : State Host) (F G : Nat),
      syscall_open idealHost (set_args s0 name O_WRONLY 0) = some s1 ∧
      s1.X rv_reg_a0 = F ∧ 3 ≤ F ∧
      syscall_write idealHost (set_args s1 F buf N) = some s2 ∧
      s2.X rv_reg_a0 = N ∧
      (syscall_close idealHost (rv_set_reg s2 rv_reg_a0 F)).X rv_reg_a0 = 0 ∧
      syscall_open idealHost
        (set_args (syscall_close idealHost (rv_set_reg s2 rv_reg_a0 F)) name O_RDONLY 0)
          = some s4 ∧
      s4.X rv_reg_a0 = G ∧ 3 ≤ G ∧
      syscall_read idealHost (set_args s4 G buf2 N) = some s5 ∧
      s5.X rv_reg_a0 = N ∧
      ∀ i, i < N → s5.mem (buf2 + i) = s0.mem (buf + i) := by
  have mname : name % 4294967296 = name := Nat.mod_eq_of_lt hnm
  have mbuf : buf % 4294967296 = buf := Nat.mod_eq_of_lt hbuf
  have mbuf2 : buf2 % 4294967296 = buf2 := Nat.mod_eq_of_lt hbuf2
  have mN : N % 4294967296 = N := Nat.mod_eq_of_lt hN
  -- open for writing
  obtain ⟨s1, F, h1, hF, hF3, hFle, hm1, hfd1, hst1, hfile1, -⟩ :=
    open_ideal_wb (set_args s0 name O_WRONLY 0) name_len
      (by simpa [mname] using hname) (by simp; decide) (by simp; omega)
  simp only [set_args_X_a0, set_args_mem, set_args_fd_map, set_args_host,
    mname] at hFle hm1 hfd1 hst1 hfile1
  have mF : F % 4294967296 = F := Nat.mod_eq_of_lt (by omega)
  -- write
  obtain ⟨s2, h2, hr2, hm2, hfd2, hst2, hfile2, -⟩ :=
    write_ideal_facts (set_args s1 F buf N) s0.host.next
      ⟨memory_read s0.mem name name_len, "wb", 0, false⟩ []
      (by simp [mF, hfd1, map_find]) (by simpa using hst1) rfl (by simpa using hfile1) rfl
      (by simp [mN, hN]) (by simp [mbuf, mN, hfit])
  simp only [set_args_X_a1, set_args_X_a2, set_args_mem, set_args_fd_map, mbuf, mN,
    List.nil_append, Nat.zero_add, hm1] at hr2 hm2 hfd2 hst2 hfile2
  -- close
  obtain ⟨hr3, hm3, hfd3, hfile3, -⟩ :=
    close_ideal_facts (rv_set_reg s2 rv_reg_a0 F) s0.host.next
      ⟨memory_read s0.mem name name_len, "wb", N, false⟩
      (by simp [mF, hF3]) (by simp [mF, hfd2, hfd1, map_find]) (by simpa using hst2)
  simp only [rv_set_reg_X_same, rv_set_reg_mem, rv_set_reg_fd_map, rv_set_reg_host,
    mF] at hm3 hfd3 hfile3
  generalize hs3 : syscall_close idealHost (rv_set_reg s2 rv_reg_a0 F) = s3 at *
  have hlen3 : s3.fd_map.length ≤ s0.fd_map.length + 1 := by
    rw [hfd3, hfd2, hfd1, map_erase]
    exact le_trans (List.length_filter_le _ _) (by simp)
  -- open for reading
  obtain ⟨s4, G, h4, hG, hG3, hGle, hm4, hfd4, hst4, hfile4⟩ :=
    open_ideal_rb (set_args s3 name O_RDONLY 0) name_len (memory_read s0.mem buf N)
      (by simpa [mname, hm3, hm2, hm1] using hname) (by simp; decide)
      (by simp [mname, hm3, hm2, hm1, hfile3, hfile2])
      (by simp; omega)
  simp only [set_args_X_a0, set_args_mem, set_args_fd_map, set_args_host, mname, hm3, hm2,
    hm1] at hGle hm4 hfd4 hst4 hfile4
  have mG : G % 4294967296 = G := Nat.mod_eq_of_lt (by omega)
  -- read
  have hrem : (set_args s4 G buf2 N).host.remaining
      ⟨memory_read s0.mem name name_len, "rb", 0, false⟩ = memory_read s0.mem buf N := by
    simp [Host.remaining, Host.content, hfile4, hfile3, hfile2]
  obtain ⟨staged5, h5⟩ := syscall_read_ideal (set_args s4 G buf2 N) s3.host.next
    ⟨memory_read s0.mem name name_len, "rb", 0, false⟩
    (by simp [mG, hfd4, map_find]) (by simpa using hst4) (by simp)
    (by simp [mN, hN]) (by rw [hrem]; simp [mbuf2, mN, memory_read_length, hfit2])
  rw [hrem] at h5
  simp only [set_args_X_a1, set_args_X_a2, set_args_mem, mbuf2, mN, memory_read_length,
    Nat.min_self, hm4] at h5
  refine ⟨s1, s2, s4, _, F, G, h1, hF, hF3, h2, hr2, ?_, ?_, hG, hG3, h5, ?_, ?_⟩
  · rw [hs3]; exact hr3
  · rw [hs3]; exact h4
  · simp [mN]
  · intro i hi
    simp only [rv_set_reg_mem]
    rw [memory_write_inside _ _ _ _ _ hi, take_getD _ _ _ hi, memory_read_getD _ _ _ _ hi]

/-- Instance at `vm1` with 4097 bytes, one more than the staging capacity. -/
theorem C4_round_trip_witness :
    ∃ (s1 s2 s4 s5 : State Host) (F G : Nat),
      syscall_open idealHost (set_args vm1 16 O_WRONLY 0) = some s1 ∧
      s1.X rv_reg_a0 = F ∧ 3 ≤ F ∧
      syscall_write idealHost (set_args s1 F 32 4097) = some s2 ∧
      s2.X rv_reg_a0 = 4097 ∧
      (syscall_close idealHost (rv_set_reg s2 rv_reg_a0 F)).X rv_reg_a0 = 0 ∧
      syscall_open idealHost
        (set_args (syscall_close idealHost (rv_set_reg s2 rv_reg_a0 F)) 16 O_RDONLY 0)
          = some s4 ∧
      s4.X rv_reg_a0 = G ∧ 3 ≤ G ∧
      syscall_read idealHost (set_args s4 G 8192 4097) = some s5 ∧
      s5.X rv_reg_a0 = 4097 ∧
      ∀ i, i < 4097 → s5.mem (8192 + i) = vm1.mem (32 + i) :=
  C4_write_read_round_trip vm1 16 1 32 8192 4097 (by decide) (by decide) (by decide)
    (by decide) (by decide) (by decide) (by decide) (by decide)

/-! ## The chunk loops always end -/

theorem read_loop_isSome (ops : HostOps H) (handle buf : Nat) :
    ∀ (fuel count total : Nat) (s : State H), count / 4096 < fuel →
      ∃ r, read_loop ops handle buf fuel count total s = some r := by
  intro fuel
  induction fuel with
  | zero => intro count total s h; omega
  | succ n ih =>
    intro count total s hfuel
    rw [read_loop]
    by_cases hc : count > PREALLOC_SIZE
    · rw [if_pos hc]
      by_cases hr : (ops.fread s.host handle PREALLOC_SIZE).1.length ≠ PREALLOC_SIZE
      · simp only [hr, ne_eq, not_false_eq_true, if_true]
        exact ⟨_, rfl⟩
      · simp only [hr, if_false]
        apply ih
        have hr2 : (ops.fread s.host handle PREALLOC_SIZE).1.length = 4096 := by
          simpa [PREALLOC_SIZE] using hr
        have hc2 : count > 4096 := hc
        rw [hr2]
        simp only [sub32]
        omega
    · rw [if_neg hc]
      exact ⟨_, rfl⟩

/-- The handler `syscall_read` returns, whatever the host does. -/
theorem syscall_read_isSome (ops : HostOps H) (s : State H) :
    ∃ s1, syscall_read ops s = some s1 := by
  unfold syscall_read
  simp only
  cases hfd : map_find s.fd_map (rv_get_reg s rv_reg_a0) with
  | none => exact ⟨_, rfl⟩
  | some handle =>
    obtain ⟨r, hr⟩ := read_loop_isSome ops handle (rv_get_reg s rv_reg_a1)
      (rv_get_reg s rv_reg_a2 + 1) (rv_get_reg s rv_reg_a2) 0 s
      (by have := Nat.div_le_self (rv_get_reg s rv_reg_a2) 4096; omega)
    obtain ⟨count1, total_read, s1⟩ := r
    simp only [hr]
    split
    · exact ⟨_, rfl⟩
    · exact ⟨_, rfl⟩

/-- The chunk loop of `syscall_write` ends, whatever the host does. -/
theorem write_loop_isSome (ops : HostOps H) (it : Option Nat) (buffer : Nat) :
    ∀ (fuel count total : Nat) (s : State H), count / 4096 < fuel →
      ∃ r, write_loop ops it buffer fuel count total s = some r := by
  intro fuel
  induction fuel with
  | zero => intro count total s h; omega
  | succ n ih =>
    intro count total s hfuel
    rw [write_loop]
    by_cases hc : count > PREALLOC_SIZE
    · rw [if_pos hc]
      cases it with
      | none => exact ⟨_, rfl⟩
      | some handle =>
        simp only
        split
        · exact ⟨_, rfl⟩
        · apply ih
          have hc2 : count > 4096 := hc
          simp only [sub32, PREALLOC_SIZE]
          omega
    · rw [if_neg hc]
      exact ⟨_, rfl⟩

/-! ## Output of a string -/

theorem writestring_loop_emits (ops : HostOps H) (addr : Nat) :
    ∀ (n fuel total : Nat) (s : State H), n < fuel → total + n < 4294967296 →
      s.mem (add32 addr (total + n)) = 0 →
      (∀ i, i < n → s.mem (add32 addr (total + i)) ≠ 0) →
      ∃ staged1, writestring_loop ops addr fuel total s = some { s with
        host := ((List.range n).map (fun i => s.mem (add32 addr (total + i)))).foldl
          ops.putchar s.host
        staged := staged1 } := by
  intro n
  induction n with
  | zero =>
    intro fuel total s hfuel _ hnul _
    obtain ⟨f, rfl⟩ : ∃ f, fuel = f + 1 := ⟨fuel - 1, by omega⟩
    refine ⟨s.staged ++ [Staged.memory_read 1], ?_⟩
    rw [Nat.add_zero] at hnul
    simp [writestring_loop, memory_read, hnul]
  | succ n ih =>
    intro fuel total s hfuel hsum hnul hnz
    obtain ⟨f, rfl⟩ : ∃ f, fuel = f + 1 := ⟨fuel - 1, by omega⟩
    have h0 : s.mem (add32 addr total) ≠ 0 := by
      have := hnz 0 (by omega)
      simpa using this
    have hadd : add32 total 1 = total + 1 := by simp only [add32]; omega
    obtain ⟨staged1, hrun⟩ := ih f (total + 1)
      { s with
        staged := s.staged ++ [Staged.memory_read 1]
        host := ops.putchar s.host (s.mem (add32 addr total)) }
      (by omega) (by omega)
      (by have e : total + 1 + n = total + (n + 1) := by omega
          rw [e]; exact hnul)
      (by intro i hi
          have e : total + 1 + i = total + (i + 1) := by omega
          rw [e]; exact hnz (i + 1) (by omega))
    refine ⟨staged1, ?_⟩
    have hstep : writestring_loop ops addr (f + 1) total s
        = writestring_loop ops addr f (total + 1)
          { s with
            staged := s.staged ++ [Staged.memory_read 1]
            host := ops.putchar s.host (s.mem (add32 addr total)) } := by
      simp [writestring_loop, memory_read, h0, hadd]
    rw [hstep, hrun]
    have hl : (List.range (n + 1)).map (fun i => s.mem (add32 addr (total + i)))
        = s.mem (add32 addr total)
          :: (List.range n).map (fun i => s.mem (add32 addr (total + 1 + i))) := by
      rw [List.range_succ_eq_map, List.map_cons, List.map_map]
      simp only [Nat.add_zero, List.cons.injEq, true_and]
      apply List.map_congr_left
      intro i _
      simp only [Function.comp, Nat.succ_eq_add_one]
      have e : total + (i + 1) = total + 1 + i := by omega
      rw [e]
    rw [hl, List.foldl_cons]

/-- The handler `syscall_writestring` returns when a NUL byte is met `n` bytes after the
address in `a0`, having handed to `putchar` exactly the `n` bytes before it,
one by one and in order; no register, no guest byte and no table entry
changes. -/
theorem syscall_writestring_emits (ops : HostOps H) (s : State H) (n : Nat)
    (hn : n < 4294967296)
    (hnul : s.mem (add32 (s.X rv_reg_a0) n) = 0)
    (hnz : ∀ i, i < n → s.mem (add32 (s.X rv_reg_a0) i) ≠ 0) :
    ∃ s1, syscall_writestring ops s = some s1 ∧
      s1.host = ((List.range n).map (fun i => s.mem (add32 (s.X rv_reg_a0) i))).foldl
        ops.putchar s.host ∧
      s1.X = s.X ∧ s1.F = s.F ∧ s1.mem = s.mem ∧ s1.fd_map = s.fd_map ∧
      s1.break_addr = s.break_addr ∧ s1.exit_code = s.exit_code := by
  obtain ⟨staged1, hrun⟩ := writestring_loop_emits ops (s.X rv_reg_a0) n 4294967296 0 s hn
    (by omega) (by simpa using hnul) (by simpa using hnz)
  refine ⟨_, hrun, ?_, rfl, rfl, rfl, rfl, rfl, rfl⟩
  simp

/-! ## Sizes of the staged transfers of the write path -/

theorem write_loop_staged (ops : HostOps H) (it : Option Nat) (buffer : Nat) :
    ∀ (fuel count total : Nat) (s : State H) (r : WriteLoop H),
      write_loop ops it buffer fuel count total s = some r →
      (∀ s1, r = WriteLoop.error s1 →
        ∀ e ∈ s1.staged, e ∈ s.staged ∨ e.size ≤ PREALLOC_SIZE) ∧
      (∀ count1 total1 s1, r = WriteLoop.done count1 total1 s1 →
        count1 ≤ PREALLOC_SIZE ∧ ∀ e ∈ s1.staged, e ∈ s.staged ∨ e.size ≤ PREALLOC_SIZE) := by
  intro fuel
  induction fuel with
  | zero => intro count total s r h; simp [write_loop] at h
  | succ n ih =>
    intro count total s r h
    rw [write_loop] at h
    by_cases hc : count > PREALLOC_SIZE
    · rw [if_pos hc] at h
      cases it with
      | none =>
        simp only [Option.some.injEq] at h
        subst h
        refine ⟨?_, ?_⟩
        · intro s1 hs1 e he
          simp only [WriteLoop.error.injEq] at hs1
          subst hs1
          simp only [List.mem_append, List.mem_singleton] at he
          rcases he with he | he
          · exact Or.inl he
          · right; rw [he]; exact le_refl _
        · intro count1 total1 s1 hs1
          simp at hs1
      | some handle =>
        simp only at h
        split at h
        · simp only [Option.some.injEq] at h
          subst h
          refine ⟨?_, ?_⟩
          · intro s1 hs1 e he
            simp only [WriteLoop.error.injEq] at hs1
            subst hs1
            simp only [List.mem_append, List.mem_singleton] at he
            rcases he with (he | he) | he
            · exact Or.inl he
            · right; rw [he]; exact le_refl _
            · right; rw [he]; exact le_refl _
          · intro count1 total1 s1 hs1
            simp at hs1
        · obtain ⟨h1, h2⟩ := ih _ _ _ r h
          have hold : ∀ e ∈ s.staged ++ [Staged.memory_read PREALLOC_SIZE]
                ++ [Staged.fwrite PREALLOC_SIZE],
              e ∈ s.staged ∨ e.size ≤ PREALLOC_SIZE := by
            intro e he
            simp only [List.mem_append, List.mem_singleton] at he
            rcases he with (he | he) | he
            · exact Or.inl he
            · right; rw [he]; exact le_refl _
            · right; rw [he]; exact le_refl _
          refine ⟨?_, ?_⟩
          · intro s1 hs1 e he
            rcases h1 s1 hs1 e he with h3 | h3
            · exact hold e h3
            · exact Or.inr h3
          · intro count1 total1 s1 hs1
            obtain ⟨h3, h4⟩ := h2 count1 total1 s1 hs1
            refine ⟨h3, ?_⟩
            intro e he
            rcases h4 e he with h5 | h5
            · exact hold e h5
            · exact Or.inr h5
    · rw [if_neg hc] at h
      simp only [Option.some.injEq] at h
      subst h
      refine ⟨?_, ?_⟩
      · intro s1 hs1
        simp at hs1
      · intro count1 total1 s1 hs1
        simp only [WriteLoop.done.injEq] at hs1
        obtain ⟨rfl, -, rfl⟩ := hs1
        exact ⟨by omega, fun e he => Or.inl he⟩

/-- Every transfer that `syscall_write` stages asks for at most `PREALLOC_SIZE`
bytes, whatever the count and whatever the host does. -/
theorem syscall_write_staged_bounded (ops : HostOps H) (s s1 : State H)
    (h : syscall_write ops s = some s1) :
    ∀ e ∈ s1.staged, e ∈ s.staged ∨ e.size ≤ PREALLOC_SIZE := by
  unfold syscall_write at h
  simp only at h
  cases hl : write_loop ops (map_find s.fd_map (rv_get_reg s rv_reg_a0))
      (rv_get_reg s rv_reg_a1) (rv_get_reg s rv_reg_a2 + 1) (rv_get_reg s rv_reg_a2) 0 s with
  | none => rw [hl] at h; simp at h
  | some r =>
    rw [hl] at h
    obtain ⟨h1, h2⟩ := write_loop_staged ops _ _ _ _ _ s r hl
    cases r with
    | error s2 =>
      simp only [Option.some.injEq] at h
      subst h
      exact h1 s2 rfl
    | done count1 total1 s2 =>
      obtain ⟨hc, hs⟩ := h2 count1 total1 s2 rfl
      have hnew : ∀ (t : State H) (extra : List Staged),
          t.staged = s2.staged ++ extra → (∀ e ∈ extra, e.size ≤ PREALLOC_SIZE) →
          ∀ e ∈ t.staged, e ∈ s.staged ∨ e.size ≤ PREALLOC_SIZE := by
        intro t extra ht hex e he
        rw [ht, List.mem_append] at he
        rcases he with he | he
        · exact hs e he
        · exact Or.inr (hex e he)
      simp only at h
      split at h
      · split at h
        · simp only [Option.some.injEq] at h
          subst h
          refine hnew _ [Staged.memory_read count1, Staged.fwrite count1] (by simp) ?_
          intro e he
          simp only [List.mem_cons, List.mem_singleton, List.not_mem_nil, or_false] at he
          rcases he with he | he <;> (rw [he]; exact hc)
        · split at h
          · simp only [Option.some.injEq] at h
            subst h
            refine hnew _ [Staged.memory_read count1, Staged.fwrite count1] (by simp) ?_
            intro e he
            simp only [List.mem_cons, List.mem_singleton, List.not_mem_nil, or_false] at he
            rcases he with he | he <;> (rw [he]; exact hc)
          · simp at h
      · simp only [Option.some.injEq] at h
        subst h
        refine hnew _ [Staged.memory_read count1] (by simp) ?_
        intro e he
        simp only [List.mem_singleton] at he
        rw [he]; exact hc

end Rv32emu
